import Mathlib

/-!
# VirtualBank: a shallow embedding of `bank.h` / `bank.cpp`

The development embeds the sequential behaviour of the bank core
(`transaction`, `user`, `ledger`, `user_transactions_iterator`) and proves
properties of it.

Modelling conventions.

* A C++ `int` is a 32-bit two's complement integer.  It is modelled by `CInt`,
  an integer together with the proof that it lies in `[INT_MIN, INT_MAX]`.
  Arithmetic on `CInt` wraps modulo `2^32` (`wrapInt`).  Signed overflow is
  undefined behaviour in C++; the wrapped value is the result produced by the
  usual targets, and whenever a theorem needs an exact result it says so by a
  hypothesis that the exact result is in range.
* A `user` object is identified by its address (`UserId`).  A `Store` maps each
  address to the object living there; a method only reads and writes the
  objects it is called on.
* `std::mutex` and `std::condition_variable` members carry no data and are not
  part of the sequential state.  `transfer` describes lines 49 to 63 of
  `user::transfer`, the method from the point where its `std::scoped_lock` is
  held; the acquisition itself is described by `transfer_locks`, the whole call
  by `user_transfer`, and the notification by `transfer_notified`.
* A cursor position is an `int`: `static_cast<int>(transactions.size())` is the
  size modulo `2^32` (`static_cast_int`).  The result of
  `wait_next_transaction` says whether the call returns an entry, blocks because
  its wait predicate is false, or reads the vector out of bounds.
-/

namespace bank

/-! ## The C++ type `int` -/

/-- Smallest value of a 32-bit `int`. -/
def INT_MIN : Int := -2147483648

/-- Largest value of a 32-bit `int`. -/
def INT_MAX : Int := 2147483647

/-- Two's complement wrap-around of an exact integer result into 32 bits. -/
def wrapInt (x : Int) : Int := (x + 2147483648) % 4294967296 - 2147483648

/-- A value of the C++ type `int`. -/
structure CInt where
  val : Int
  inRange : INT_MIN ≤ val ∧ val ≤ INT_MAX
deriving DecidableEq

namespace CInt

/-- Conversion of an exact integer to `int`, wrapping modulo `2^32`. -/
def ofInt (x : Int) : CInt :=
  ⟨wrapInt x, by unfold wrapInt INT_MIN INT_MAX; omega⟩

instance : OfNat CInt n := ⟨ofInt (Int.ofNat n)⟩

instance : Add CInt := ⟨fun a b => ofInt (a.val + b.val)⟩

instance : Sub CInt := ⟨fun a b => ofInt (a.val - b.val)⟩

instance : Neg CInt := ⟨fun a => ofInt (-a.val)⟩

instance : LT CInt := ⟨fun a b => a.val < b.val⟩

instance : LE CInt := ⟨fun a b => a.val ≤ b.val⟩

instance (a b : CInt) : Decidable (a < b) := inferInstanceAs (Decidable (a.val < b.val))

instance (a b : CInt) : Decidable (a ≤ b) := inferInstanceAs (Decidable (a.val ≤ b.val))

end CInt

/-! ## Constants of `bank.cpp` -/

def startupCapital : CInt := 100

def initialDepositFor : String := "Initial deposit for "

def emptyBalance : String := "You don't have money"

def selfTransfer : String := "You cannot transfer money to yourself"

/-- The decimal rendering `std::to_string(int)`. -/
def to_string (x : CInt) : String := toString x.val

def funds_error (availableMoney requestedMoney : CInt) : String :=
  "Not enough funds: " ++ to_string availableMoney ++
    " XTS available, " ++ to_string requestedMoney ++
    " XTS requested"

/-! ## Errors -/

/-- The three exception classes derived from `transfer_error`.  The arguments
of `not_enough_funds_error` are its constructor arguments. -/
inductive transfer_error where
  | not_enough_funds_error (availableMoney requestedMoney : CInt)
  | empty_balance
  | self_transaction
deriving DecidableEq

/-- The message handed to `std::runtime_error` by each exception constructor. -/
def transfer_error.what : transfer_error → String
  | .not_enough_funds_error availableMoney requestedMoney =>
      funds_error availableMoney requestedMoney
  | .empty_balance => emptyBalance
  | .self_transaction => selfTransfer

/-! ## Data model -/

/-- The address of a `user` object. -/
abbrev UserId := Nat

structure transaction where
  balance_delta_xts : CInt
  comment : String
  /-- The pointer `const user *`; `none` is `nullptr`. -/
  counterparty : Option UserId
deriving DecidableEq

/-- The constructor `transaction(const user *name, int balance, std::string message)`. -/
def transaction.ctor (name : Option UserId) (balance : CInt) (message : String) : transaction :=
  ⟨balance, message, name⟩

structure user where
  nickname : String
  balance : CInt
  transactions : List transaction
deriving DecidableEq

/-- The constructor `user::user(std::string name)`. -/
def user.ctor (name : String) : user :=
  ⟨name, startupCapital,
    [transaction.ctor none startupCapital (initialDepositFor ++ name)]⟩

/-- The objects in memory: the `user` stored at each address. -/
abbrev Store := UserId → user

def user.name (u : user) : String := u.nickname

/-- The method `user::balance_xts`, called on the object at address `this`. -/
def balance_xts (s : Store) (this : UserId) : CInt := (s this).balance

/-- The statement `balance = v` executed on the object at address `p`. -/
def Store.setBalance (s : Store) (p : UserId) (v : CInt) : Store :=
  Function.update s p ⟨(s p).nickname, v, (s p).transactions⟩

/-- The statement `transactions.emplace_back(t)` executed on the object at address `p`. -/
def Store.emplaceBack (s : Store) (p : UserId) (t : transaction) : Store :=
  Function.update s p ⟨(s p).nickname, (s p).balance, (s p).transactions ++ [t]⟩

/-- The method `user::transfer`, called on the object at address `this` with the
object at address `counterparty`, from the point where the two locks are held.
The result is the exception thrown, if any, together with the memory at the
moment the call is left. -/
def transfer (s : Store) (this counterparty : UserId) (amount_xts : CInt)
    (comment : String) : Option transfer_error × Store :=
  if (s this).balance < amount_xts then
    (some (.not_enough_funds_error (s this).balance amount_xts), s)
  else if (s this).balance ≤ 0 then
    (some .empty_balance, s)
  else if this = counterparty then
    (some .self_transaction, s)
  else
    let s1 := s.setBalance this ((s this).balance - amount_xts)
    let s2 := s1.setBalance counterparty ((s1 counterparty).balance + amount_xts)
    let s3 := s2.emplaceBack counterparty (transaction.ctor (some this) amount_xts comment)
    let s4 := s3.emplaceBack this (transaction.ctor (some counterparty) (-amount_xts) comment)
    (none, s4)

/-- One call of `user::transfer` with its arguments. -/
structure TransferCall where
  this : UserId
  counterparty : UserId
  amount_xts : CInt
  comment : String
deriving DecidableEq

/-- The exception thrown by the call in memory `s`, if any. -/
def TransferCall.thrown (c : TransferCall) (s : Store) : Option transfer_error :=
  (transfer s c.this c.counterparty c.amount_xts c.comment).1

/-- The memory after the call was made in memory `s`. -/
def TransferCall.exec (c : TransferCall) (s : Store) : Store :=
  (transfer s c.this c.counterparty c.amount_xts c.comment).2

/-- None of the three `int` operations of a call that passes the checks
(`balance - amount_xts`, `counterparty.balance + amount_xts`, `-amount_xts`)
overflows. -/
def TransferCall.exact (c : TransferCall) (s : Store) : Prop :=
  c.thrown s = none →
    (INT_MIN ≤ (s c.this).balance.val - c.amount_xts.val ∧
      (s c.this).balance.val - c.amount_xts.val ≤ INT_MAX) ∧
    (INT_MIN ≤ (s c.counterparty).balance.val + c.amount_xts.val ∧
      (s c.counterparty).balance.val + c.amount_xts.val ≤ INT_MAX) ∧
    (INT_MIN ≤ -c.amount_xts.val ∧ -c.amount_xts.val ≤ INT_MAX)

instance (c : TransferCall) (s : Store) : Decidable (c.exact s) :=
  inferInstanceAs (Decidable (c.thrown s = none →
    (INT_MIN ≤ (s c.this).balance.val - c.amount_xts.val ∧
      (s c.this).balance.val - c.amount_xts.val ≤ INT_MAX) ∧
    (INT_MIN ≤ (s c.counterparty).balance.val + c.amount_xts.val ∧
      (s c.counterparty).balance.val + c.amount_xts.val ≤ INT_MAX) ∧
    (INT_MIN ≤ -c.amount_xts.val ∧ -c.amount_xts.val ≤ INT_MAX)))

/-- The memory after a sequence of transfer calls made one after the other. -/
def execAll (s : Store) : List TransferCall → Store
  | [] => s
  | c :: cs => execAll (c.exec s) cs

/-- No call of the sequence overflows in the memory it is made in. -/
def ExactAll (s : Store) : List TransferCall → Prop
  | [] => True
  | c :: cs => c.exact s ∧ ExactAll (c.exec s) cs

/-! ## Ledger -/

/-- The memory together with one `ledger` object.  `clients` is the map from
names to the owned `user` objects, `fresh` the address the next allocation
returns. -/
structure World where
  store : Store
  fresh : UserId
  clients : List (String × UserId)

/-- The memory before any user exists, with an empty ledger. -/
def World.empty : World := ⟨fun _ => ⟨"", 0, []⟩, 0, []⟩

/-- The addresses of the accounts registered in the ledger. -/
def World.accounts (w : World) : List UserId := w.clients.map Prod.snd

/-- The method `ledger::get_or_create_user`.  `try_emplace` keeps an entry that
is already there (the `user` built for the call is destroyed again) and
otherwise registers the new object; the result is `*clients[name]`. -/
def get_or_create_user (w : World) (name : String) : UserId × World :=
  match w.clients.lookup name with
  | some p => (p, w)
  | none =>
      (w.fresh,
        ⟨Function.update w.store w.fresh (user.ctor name), w.fresh + 1,
          w.clients ++ [(name, w.fresh)]⟩)

/-- A call made by a client of the ledger. -/
inductive Call where
  | get_or_create_user (name : String)
  | transfer (c : TransferCall)

/-- The state after a call. -/
def World.step (w : World) : Call → World
  | .get_or_create_user name => (get_or_create_user w name).2
  | .transfer c => ⟨c.exec w.store, w.fresh, w.clients⟩

/-- The call can be made: the references passed to `transfer` are accounts of
the ledger. -/
def World.admits (w : World) : Call → Prop
  | .get_or_create_user _ => True
  | .transfer c => c.this ∈ w.accounts ∧ c.counterparty ∈ w.accounts

/-- The call overflows no `int`. -/
def World.exact (w : World) : Call → Prop
  | .get_or_create_user _ => True
  | .transfer c => c.exact w.store

/-- The state after a sequence of calls. -/
def World.run (w : World) : List Call → World
  | [] => w
  | c :: cs => (w.step c).run cs

/-- Every call of the sequence can be made in the state it is made in. -/
def World.Admits (w : World) : List Call → Prop
  | [] => True
  | c :: cs => w.admits c ∧ (w.step c).Admits cs

/-- No call of the sequence overflows. -/
def World.Exact (w : World) : List Call → Prop
  | [] => True
  | c :: cs => w.exact c ∧ (w.step c).Exact cs

/-- Decision procedure for `ExactAll`. -/
def ExactAll.decide : (s : Store) → (cs : List TransferCall) → Decidable (ExactAll s cs)
  | _, [] => isTrue trivial
  | s, c :: cs =>
      have : Decidable (ExactAll (c.exec s) cs) := ExactAll.decide (c.exec s) cs
      inferInstanceAs (Decidable (c.exact s ∧ ExactAll (c.exec s) cs))

instance (s : Store) (cs : List TransferCall) : Decidable (ExactAll s cs) :=
  ExactAll.decide s cs

instance (w : World) : (c : Call) → Decidable (w.admits c)
  | .get_or_create_user _ => isTrue trivial
  | .transfer c =>
      inferInstanceAs (Decidable (c.this ∈ w.accounts ∧ c.counterparty ∈ w.accounts))

instance (w : World) : (c : Call) → Decidable (w.exact c)
  | .get_or_create_user _ => isTrue trivial
  | .transfer c => inferInstanceAs (Decidable (c.exact w.store))

/-- Decision procedure for `World.Admits`. -/
def World.Admits.decide : (w : World) → (cs : List Call) → Decidable (w.Admits cs)
  | _, [] => isTrue trivial
  | w, c :: cs =>
      have : Decidable ((w.step c).Admits cs) := World.Admits.decide (w.step c) cs
      inferInstanceAs (Decidable (w.admits c ∧ (w.step c).Admits cs))

instance (w : World) (cs : List Call) : Decidable (w.Admits cs) :=
  World.Admits.decide w cs

/-- Decision procedure for `World.Exact`. -/
def World.Exact.decide : (w : World) → (cs : List Call) → Decidable (w.Exact cs)
  | _, [] => isTrue trivial
  | w, c :: cs =>
      have : Decidable ((w.step c).Exact cs) := World.Exact.decide (w.step c) cs
      inferInstanceAs (Decidable (w.exact c ∧ (w.step c).Exact cs))

instance (w : World) (cs : List Call) : Decidable (w.Exact cs) :=
  World.Exact.decide w cs

/-- The sum of the deltas of a log, as an exact integer. -/
def sumDeltas (l : List transaction) : Int :=
  (l.map fun t => t.balance_delta_xts.val).sum

/-- The balance of the object equals the exact sum of the deltas of its log. -/
def user.consistent (u : user) : Prop := u.balance.val = sumDeltas u.transactions

/-- Every account of the ledger is consistent. -/
def World.consistent (w : World) : Prop := ∀ p ∈ w.accounts, (w.store p).consistent

/-! ## Cursor -/

/-- The conversion `static_cast<int>(n)` of a `std::size_t` value `n`: the value
modulo `2^32`, read as a signed 32-bit number. -/
def static_cast_int (n : Nat) : CInt :=
  if h : n % 4294967296 < 2147483648 then
    ⟨Int.ofNat (n % 4294967296), by unfold INT_MIN INT_MAX; simp only [Int.ofNat_eq_coe]; omega⟩
  else
    ⟨Int.ofNat (n % 4294967296) - 4294967296,
      by unfold INT_MIN INT_MAX; simp only [Int.ofNat_eq_coe]; omega⟩

/-- The conversion of an `int` to the 64-bit `std::size_t` that
`std::vector::operator[]` takes as index: the value modulo `2^64`. -/
def to_size_t (x : CInt) : Nat := (x.val % 18446744073709551616).toNat

structure user_transactions_iterator where
  client : UserId
  countTransactions : CInt
deriving DecidableEq

/-- The constructor `user_transactions_iterator(int userTransactions, const user *newClient)`. -/
def user_transactions_iterator.ctor (userTransactions : CInt) (newClient : UserId) :
    user_transactions_iterator :=
  ⟨newClient, userTransactions⟩

/-- The method `user::monitor`. -/
def monitor (s : Store) (this : UserId) : user_transactions_iterator :=
  user_transactions_iterator.ctor (static_cast_int (s this).transactions.length) this

/-- The method `user::snapshot_transactions`.  The callback `f` receives the log
and the balance; what it does with them is its effect on an observer state. -/
def snapshot_transactions {σ : Type} (s : Store) (this : UserId)
    (f : List transaction → CInt → σ → σ) (obs : σ) : σ × user_transactions_iterator :=
  (f (s this).transactions (s this).balance obs,
    user_transactions_iterator.ctor (static_cast_int (s this).transactions.length) this)

/-- What a call of `wait_next_transaction` does in a memory that does not change
during the call: it returns an entry and leaves the cursor advanced, or its wait
predicate is false and it blocks, or it reads the vector outside its bounds and
its behaviour is undefined. -/
inductive wait_result where
  | returned (t : transaction) (it : user_transactions_iterator)
  | blocked
  | undefined
deriving DecidableEq

/-- The method `user_transactions_iterator::wait_next_transaction` in memory `s`:
the wait predicate `countTransactions < static_cast<int>(client->transactions.size())`,
then `client->transactions[countTransactions++]`. -/
def wait_next_transaction (s : Store) (it : user_transactions_iterator) : wait_result :=
  if it.countTransactions < static_cast_int (s it.client).transactions.length then
    match (s it.client).transactions[to_size_t it.countTransactions]? with
    | some t => .returned t ⟨it.client, it.countTransactions + 1⟩
    | none => .undefined
  else .blocked

/-- The allocator hands out no address twice: every registered account lies
below the next address to be allocated. -/
def World.wellFormed (w : World) : Prop := ∀ p ∈ w.accounts, p < w.fresh

/-- The entry a new account starts its log with. -/
def initialDeposit (name : String) : transaction :=
  transaction.ctor none startupCapital (initialDepositFor ++ name)

/-- The sum of the balances of the objects at the addresses `l`, as an exact integer. -/
def sumBalances (s : Store) (l : List UserId) : Int :=
  (l.map fun p => (s p).balance.val).sum

/-- The entries of a log whose counterparty is `q`, in log order. -/
def entriesWith (q : Option UserId) (l : List transaction) : List transaction :=
  l.filter fun t => t.counterparty = q

/-- The entry the other side of a transfer holds for the entry `t`: the same
comment, the negated delta, and `b` as counterparty. -/
def transaction.mirrored (b : UserId) (t : transaction) : transaction :=
  ⟨-t.balance_delta_xts, t.comment, some b⟩

/-- The accounts of the ledger are pairwise different objects below `fresh`, and
their balances sum to 100 per account. -/
def World.balanced (w : World) : Prop :=
  w.wellFormed ∧ w.accounts.Nodup ∧
    sumBalances w.store w.accounts = 100 * (w.accounts.length : Int)

/-- Every registered account carries the name it is registered under, and its
log starts with the initial deposit for that name, which is its only entry
without counterparty. -/
def World.seeded (w : World) : Prop :=
  ∀ name p, (name, p) ∈ w.clients →
    (w.store p).nickname = name ∧
    ∃ rest, (w.store p).transactions = initialDeposit name :: rest ∧
      ∀ t ∈ rest, t.counterparty ≠ none

/-- Every log entry names an allocated object as counterparty, and the logs of
two different allocated objects mirror each other: the entries of `a` with
counterparty `b` are, in order, the mirrored entries of `b` with counterparty
`a`. -/
def World.mirror (w : World) : Prop :=
  (∀ q, ∀ t ∈ (w.store q).transactions, ∀ r, t.counterparty = some r → r < w.fresh) ∧
  (∀ a b, a < w.fresh → b < w.fresh → a ≠ b →
    entriesWith (some b) (w.store a).transactions =
      (entriesWith (some a) (w.store b).transactions).map (transaction.mirrored b))

/-- The entries a call that passes the three checks appends to the log of the
object at address `p`. -/
def TransferCall.newEntries (c : TransferCall) (p : UserId) : List transaction :=
  if p = c.this then [⟨-c.amount_xts, c.comment, some c.counterparty⟩]
  else if p = c.counterparty then [⟨c.amount_xts, c.comment, some c.this⟩]
  else []

/-! ## The operations of the core -/

/-- One call of an operation of the core.  `balance_xts`, `monitor` and
`snapshot_transactions` are `const` member functions (the callback receives the
log and the balance by `const` reference) and `wait_next_transaction` reaches
its user through a `const user *`: they cannot write to a `user` or to the
ledger. -/
inductive CoreCall where
  | get_or_create_user (name : String)
  | transfer (c : TransferCall)
  | balance_xts (this : UserId)
  | monitor (this : UserId)
  | snapshot_transactions (this : UserId)
  | wait_next_transaction (it : user_transactions_iterator)

/-- The state after one operation of the core. -/
def World.perform (w : World) : CoreCall → World
  | .get_or_create_user name => w.step (.get_or_create_user name)
  | .transfer c => w.step (.transfer c)
  | .balance_xts _ => w
  | .monitor _ => w
  | .snapshot_transactions _ => w
  | .wait_next_transaction _ => w

/-- The state after a sequence of operations of the core. -/
def World.performAll (w : World) : List CoreCall → World
  | [] => w
  | op :: ops => (w.perform op).performAll ops

/-! ## Synchronisation -/

/-- The condition variables on which a call of `user::transfer` calls
`notify_all`, by the address of the `user` they belong to.  The only
notification in `transfer` is the last statement, `conditionVariable.notify_all()`,
which names the member of `*this`; a call that throws leaves before it. -/
def transfer_notified (s : Store) (this counterparty : UserId) (amount_xts : CInt)
    (comment : String) : List UserId :=
  if (transfer s this counterparty amount_xts comment).1 = none then [this] else []

/-- The first statement of `user::transfer`,
`std::scoped_lock locked(mutex, counterparty.mutex)`, executed by a thread that
holds no lock: the mutexes the thread owns once the constructor has returned, by
the address of the `user` they belong to, or `none` if the constructor cannot
return.  `std::mutex` is not recursive, so a thread cannot own the same mutex
twice: when both arguments are the same mutex the acquisition never completes
(the behaviour is undefined). -/
def transfer_locks (this counterparty : UserId) : Option (List UserId) :=
  if this = counterparty then none else some [this, counterparty]

/-- The whole method `user::transfer` called by a thread that holds no lock:
the `std::scoped_lock` of line 48 (`transfer_locks`), then lines 49 to 63
(`transfer`).  `none` means that the call never returns, because its lock
acquisition does not complete; otherwise the result is the exception thrown, if
any, together with the memory at the moment the call is left. -/
def user_transfer (s : Store) (this counterparty : UserId) (amount_xts : CInt)
    (comment : String) : Option (Option transfer_error × Store) :=
  match transfer_locks this counterparty with
  | none => none
  | some _ => some (transfer s this counterparty amount_xts comment)

/-! ## Concrete states used as examples -/

/-- Three accounts are created in an empty ledger, then `b` calls
`transfer(c, -2147483547, "pull")`: the call passes the three checks and leaves
`b` with `100 + 2147483547 = INT_MAX` and `c` with `100 - 2147483547`. -/
def richWorld : World :=
  World.empty.run
    [.get_or_create_user "a", .get_or_create_user "b", .get_or_create_user "c",
      .transfer ⟨1, 2, -2147483547, "pull"⟩]

/-- Two accounts created in an empty ledger. -/
def twoFresh : World :=
  World.empty.run [.get_or_create_user "alice", .get_or_create_user "bob"]

/-- After `alice` sent her whole balance to `bob`: `alice` holds 0, `bob` 200. -/
def drained : World := twoFresh.run [.transfer ⟨0, 1, 100, "all"⟩]

/-- An account `a` as created (balance 100) next to an account holding `INT_MAX`
at address 1; every balance is non-negative. -/
def nearMax : Store := fun p => if p = 1 then ⟨"b", 2147483647, []⟩ else user.ctor "a"

/-- The memory after `alice` (address 0, created with balance 100) has called
`transfer(bob, 0, "ping")` `n` times on `bob` (address 1): every call passes the
three checks, leaves both balances at 100 and appends one entry with delta 0 to
each log. -/
def longLog (n : Nat) : Store := fun p =>
  if p = 0 then
    ⟨"alice", 100, initialDeposit "alice" :: List.replicate n ⟨0, "ping", some 1⟩⟩
  else
    ⟨"bob", 100, initialDeposit "bob" :: List.replicate n ⟨0, "ping", some 0⟩⟩

/-! ## Facts about `int` arithmetic -/

theorem wrapInt_inRange (x : Int) : INT_MIN ≤ wrapInt x ∧ wrapInt x ≤ INT_MAX := by
  unfold wrapInt INT_MIN INT_MAX
  omega

theorem wrapInt_eq_self {x : Int} (hlo : INT_MIN ≤ x) (hhi : x ≤ INT_MAX) : wrapInt x = x := by
  unfold wrapInt
  unfold INT_MIN at hlo
  unfold INT_MAX at hhi
  omega

theorem CInt.ext_val {a b : CInt} (h : a.val = b.val) : a = b := by
  cases a; cases b; cases h; rfl

theorem CInt.lt_def (a b : CInt) : a < b ↔ a.val < b.val := Iff.rfl

theorem CInt.le_def (a b : CInt) : a ≤ b ↔ a.val ≤ b.val := Iff.rfl

theorem CInt.add_val (a b : CInt) : (a + b).val = wrapInt (a.val + b.val) := rfl

theorem CInt.sub_val (a b : CInt) : (a - b).val = wrapInt (a.val - b.val) := rfl

theorem CInt.neg_val (a : CInt) : (-a).val = wrapInt (-a.val) := rfl

theorem CInt.zero_val : (0 : CInt).val = 0 := rfl

/-! ## Basic facts about `transfer` -/

theorem Store.setBalance_same (s : Store) (p : UserId) (v : CInt) :
    s.setBalance p v p = ⟨(s p).nickname, v, (s p).transactions⟩ := by
  simp [Store.setBalance]

theorem Store.setBalance_other (s : Store) (p q : UserId) (v : CInt) (h : q ≠ p) :
    s.setBalance p v q = s q := by
  simp [Store.setBalance, Function.update_noteq h]

theorem Store.emplaceBack_same (s : Store) (p : UserId) (t : transaction) :
    s.emplaceBack p t p = ⟨(s p).nickname, (s p).balance, (s p).transactions ++ [t]⟩ := by
  simp [Store.emplaceBack]

theorem Store.emplaceBack_other (s : Store) (p q : UserId) (t : transaction) (h : q ≠ p) :
    s.emplaceBack p t q = s q := by
  simp [Store.emplaceBack, Function.update_noteq h]

/-- The outcome of a call that throws: the memory is the one before the call. -/
theorem transfer_not_enough (s : Store) (a b : UserId) (amt : CInt) (c : String)
    (h : (s a).balance < amt) :
    transfer s a b amt c = (some (.not_enough_funds_error (s a).balance amt), s) := by
  simp [transfer, h]

theorem transfer_empty (s : Store) (a b : UserId) (amt : CInt) (c : String)
    (h1 : ¬ (s a).balance < amt) (h2 : (s a).balance ≤ 0) :
    transfer s a b amt c = (some .empty_balance, s) := by
  simp [transfer, h1, h2]

theorem transfer_self (s : Store) (a b : UserId) (amt : CInt) (c : String)
    (h1 : ¬ (s a).balance < amt) (h2 : ¬ (s a).balance ≤ 0) (h3 : a = b) :
    transfer s a b amt c = (some .self_transaction, s) := by
  unfold transfer
  rw [if_neg h1, if_neg h2, if_pos h3]

/-- The outcome of a call that passes the three checks. -/
theorem transfer_pass (s : Store) (a b : UserId) (amt : CInt) (c : String)
    (h1 : ¬ (s a).balance < amt) (h2 : ¬ (s a).balance ≤ 0) (h3 : a ≠ b) :
    (transfer s a b amt c).1 = none ∧
    (transfer s a b amt c).2 a =
      ⟨(s a).nickname, (s a).balance - amt,
        (s a).transactions ++ [⟨-amt, c, some b⟩]⟩ ∧
    (transfer s a b amt c).2 b =
      ⟨(s b).nickname, (s b).balance + amt,
        (s b).transactions ++ [⟨amt, c, some a⟩]⟩ ∧
    ∀ p, p ≠ a → p ≠ b → (transfer s a b amt c).2 p = s p := by
  have hba : b ≠ a := fun h => h3 h.symm
  refine ⟨by simp [transfer, h1, h2, h3], ?_, ?_, ?_⟩
  · simp [transfer, h1, h2, h3, Store.emplaceBack_same, Store.emplaceBack_other,
      Store.setBalance_same, Store.setBalance_other, hba, transaction.ctor]
  · simp [transfer, h1, h2, h3, Store.emplaceBack_same, Store.emplaceBack_other,
      Store.setBalance_same, Store.setBalance_other, hba, transaction.ctor]
  · intro p hpa hpb
    simp [transfer, h1, h2, h3, Store.emplaceBack_other, Store.setBalance_other, hpa, hpb]

/-- A call raises nothing exactly when it passes the three checks. -/
theorem transfer_none_iff (s : Store) (a b : UserId) (amt : CInt) (c : String) :
    (transfer s a b amt c).1 = none ↔
      ¬ (s a).balance < amt ∧ ¬ (s a).balance ≤ 0 ∧ a ≠ b := by
  by_cases h1 : (s a).balance < amt
  · simp [transfer_not_enough s a b amt c h1, h1]
  · by_cases h2 : (s a).balance ≤ 0
    · simp [transfer_empty s a b amt c h1 h2, h1, h2]
    · by_cases h3 : a = b
      · rw [transfer_self s a b amt c h1 h2 h3]
        simp [h3]
      · simp [(transfer_pass s a b amt c h1 h2 h3).1, h1, h2, h3]

/-- A call that raises leaves the memory as it was. -/
theorem transfer_store_of_thrown (s : Store) (a b : UserId) (amt : CInt) (c : String)
    (h : (transfer s a b amt c).1 ≠ none) : (transfer s a b amt c).2 = s := by
  by_cases h1 : (s a).balance < amt
  · rw [transfer_not_enough s a b amt c h1]
  · by_cases h2 : (s a).balance ≤ 0
    · rw [transfer_empty s a b amt c h1 h2]
    · by_cases h3 : a = b
      · rw [transfer_self s a b amt c h1 h2 h3]
      · exact absurd (transfer_pass s a b amt c h1 h2 h3).1 h

theorem sumDeltas_append_one (l : List transaction) (t : transaction) :
    sumDeltas (l ++ [t]) = sumDeltas l + t.balance_delta_xts.val := by
  simp [sumDeltas]

theorem user.ctor_consistent (name : String) : (user.ctor name).consistent := by
  simp [user.consistent, user.ctor, sumDeltas, transaction.ctor]

/-- A transfer call without overflow keeps every consistent object consistent. -/
theorem TransferCall.exec_consistent (c : TransferCall) (s : Store) (hex : c.exact s)
    (p : UserId) (hp : (s p).consistent) : (c.exec s p).consistent := by
  by_cases hthrown : c.thrown s = none
  · obtain ⟨⟨x1, x2⟩, ⟨x3, x4⟩, x5, x6⟩ := hex hthrown
    obtain ⟨h1, h2, h3⟩ :=
      (transfer_none_iff s c.this c.counterparty c.amount_xts c.comment).1 hthrown
    obtain ⟨-, e2, e3, e4⟩ :=
      transfer_pass s c.this c.counterparty c.amount_xts c.comment h1 h2 h3
    unfold TransferCall.exec
    by_cases hpa : p = c.this
    · subst hpa
      rw [e2]
      unfold user.consistent at hp ⊢
      simp only [sumDeltas_append_one, CInt.sub_val, CInt.neg_val]
      rw [wrapInt_eq_self x1 x2, wrapInt_eq_self x5 x6]
      omega
    · by_cases hpb : p = c.counterparty
      · subst hpb
        rw [e3]
        unfold user.consistent at hp ⊢
        simp only [sumDeltas_append_one, CInt.add_val]
        rw [wrapInt_eq_self x3 x4]
        omega
      · rw [e4 p hpa hpb]
        exact hp
  · unfold TransferCall.exec
    rw [transfer_store_of_thrown s _ _ _ _ hthrown]
    exact hp

theorem get_or_create_user_accounts (w : World) (name : String) (p : UserId)
    (hp : p ∈ (get_or_create_user w name).2.accounts) :
    (p ∈ w.accounts ∧ (get_or_create_user w name).2.store p = w.store p) ∨
    (get_or_create_user w name).2.store p = user.ctor name := by
  unfold get_or_create_user at hp ⊢
  cases hlook : w.clients.lookup name with
  | some q =>
      rw [hlook] at hp
      exact Or.inl ⟨hp, rfl⟩
  | none =>
      rw [hlook] at hp
      simp only [World.accounts, List.map_append, List.mem_append, List.map_cons,
        List.map_nil, List.mem_singleton] at hp
      by_cases hpf : p = w.fresh
      · right
        rw [hpf]
        exact Function.update_same _ _ _
      · left
        rcases hp with hp | hp
        · exact ⟨hp, by simp [Function.update_noteq hpf]⟩
        · exact absurd hp hpf

theorem World.step_consistent (w : World) (c : Call) (hw : w.consistent)
    (hex : w.exact c) : (w.step c).consistent := by
  cases c with
  | get_or_create_user name =>
      intro p hp
      rcases get_or_create_user_accounts w name p hp with ⟨hmem, heq⟩ | heq
      · show ((get_or_create_user w name).2.store p).consistent
        rw [heq]
        exact hw p hmem
      · show ((get_or_create_user w name).2.store p).consistent
        rw [heq]
        exact user.ctor_consistent name
  | transfer t =>
      intro p hp
      exact t.exec_consistent w.store hex p (hw p hp)

theorem World.run_consistent (calls : List Call) :
    ∀ w : World, w.consistent → w.Exact calls → (w.run calls).consistent := by
  induction calls with
  | nil => intro w hw _; exact hw
  | cons c cs ih =>
      intro w hw hex
      exact ih (w.step c) (w.step_consistent c hw hex.1) hex.2

theorem World.empty_consistent : World.empty.consistent := by
  intro p hp
  simp [World.accounts, World.empty] at hp

/-- What a transfer call does to the memory: either it raises and changes
nothing, or it passes the three checks and rewrites the two objects. -/
theorem TransferCall.exec_cases (c : TransferCall) (s : Store) :
    (c.thrown s ≠ none ∧ c.exec s = s) ∨
    (c.thrown s = none ∧
      ¬ (s c.this).balance < c.amount_xts ∧ ¬ (s c.this).balance ≤ 0 ∧
      c.this ≠ c.counterparty ∧
      c.exec s c.this =
        ⟨(s c.this).nickname, (s c.this).balance - c.amount_xts,
          (s c.this).transactions ++ [⟨-c.amount_xts, c.comment, some c.counterparty⟩]⟩ ∧
      c.exec s c.counterparty =
        ⟨(s c.counterparty).nickname, (s c.counterparty).balance + c.amount_xts,
          (s c.counterparty).transactions ++ [⟨c.amount_xts, c.comment, some c.this⟩]⟩ ∧
      ∀ p, p ≠ c.this → p ≠ c.counterparty → c.exec s p = s p) := by
  by_cases hthrown : c.thrown s = none
  · obtain ⟨h1, h2, h3⟩ :=
      (transfer_none_iff s c.this c.counterparty c.amount_xts c.comment).1 hthrown
    obtain ⟨-, e2, e3, e4⟩ :=
      transfer_pass s c.this c.counterparty c.amount_xts c.comment h1 h2 h3
    exact Or.inr ⟨hthrown, h1, h2, h3, e2, e3, e4⟩
  · exact Or.inl ⟨hthrown, transfer_store_of_thrown s _ _ _ _ hthrown⟩

/-- One call between `a` and `b` without overflow keeps the sum of their balances. -/
theorem TransferCall.exec_pair_sum (c : TransferCall) (s : Store) (a b : UserId)
    (hdir : (c.this = a ∧ c.counterparty = b) ∨ (c.this = b ∧ c.counterparty = a))
    (hex : c.exact s) :
    (c.exec s a).balance.val + (c.exec s b).balance.val =
      (s a).balance.val + (s b).balance.val := by
  rcases c.exec_cases s with ⟨-, hs⟩ | ⟨hthrown, -, -, -, e2, e3, -⟩
  · rw [hs]
  · obtain ⟨⟨x1, x2⟩, ⟨x3, x4⟩, -⟩ := hex hthrown
    have v2 : (c.exec s c.this).balance.val = (s c.this).balance.val - c.amount_xts.val := by
      rw [e2]
      show ((s c.this).balance - c.amount_xts).val = _
      rw [CInt.sub_val, wrapInt_eq_self x1 x2]
    have v3 : (c.exec s c.counterparty).balance.val =
        (s c.counterparty).balance.val + c.amount_xts.val := by
      rw [e3]
      show ((s c.counterparty).balance + c.amount_xts).val = _
      rw [CInt.add_val, wrapInt_eq_self x3 x4]
    rcases hdir with ⟨ha, hb⟩ | ⟨hb, ha⟩
    · rw [ha] at v2
      rw [hb] at v3
      omega
    · rw [hb] at v2
      rw [ha] at v3
      omega

/-- One call with a positive amount and without overflow keeps all balances
non-negative. -/
theorem TransferCall.exec_nonneg (c : TransferCall) (s : Store)
    (hpos : 0 < c.amount_xts) (hex : c.exact s)
    (hs : ∀ p, 0 ≤ (s p).balance.val) : ∀ p, 0 ≤ (c.exec s p).balance.val := by
  intro p
  rcases c.exec_cases s with ⟨-, hs1⟩ | ⟨hthrown, h1, -, -, e2, e3, e4⟩
  · rw [hs1]
    exact hs p
  · obtain ⟨⟨x1, x2⟩, ⟨x3, x4⟩, -⟩ := hex hthrown
    have hposv : (0 : Int) < c.amount_xts.val := by
      have := (CInt.lt_def _ _).1 hpos
      rwa [CInt.zero_val] at this
    have h1v : ¬ (s c.this).balance.val < c.amount_xts.val := h1
    by_cases hpa : p = c.this
    · rw [hpa, e2]
      show 0 ≤ ((s c.this).balance - c.amount_xts).val
      rw [CInt.sub_val, wrapInt_eq_self x1 x2]
      omega
    · by_cases hpb : p = c.counterparty
      · rw [hpb, e3]
        show 0 ≤ ((s c.counterparty).balance + c.amount_xts).val
        rw [CInt.add_val, wrapInt_eq_self x3 x4]
        have := hs c.counterparty
        omega
      · rw [e4 p hpa hpb]
        exact hs p

theorem execAll_pair_sum (a b : UserId) (calls : List TransferCall) :
    ∀ s : Store,
      (∀ c ∈ calls, (c.this = a ∧ c.counterparty = b) ∨ (c.this = b ∧ c.counterparty = a)) →
      ExactAll s calls →
      (execAll s calls a).balance.val + (execAll s calls b).balance.val =
        (s a).balance.val + (s b).balance.val := by
  induction calls with
  | nil => intro s _ _; rfl
  | cons c cs ih =>
      intro s hdir hex
      show (execAll (c.exec s) cs a).balance.val + (execAll (c.exec s) cs b).balance.val = _
      rw [ih (c.exec s) (fun d hd => hdir d (List.mem_cons_of_mem c hd)) hex.2]
      exact c.exec_pair_sum s a b (hdir c (List.mem_cons_self c cs)) hex.1

theorem execAll_take_nonneg (calls : List TransferCall) :
    ∀ (s : Store) (k : Nat),
      (∀ c ∈ calls, 0 < c.amount_xts) → ExactAll s calls → (∀ p, 0 ≤ (s p).balance.val) →
      ∀ p, 0 ≤ (execAll s (calls.take k) p).balance.val := by
  induction calls with
  | nil => intro s k _ _ hs p; simpa [execAll] using hs p
  | cons c cs ih =>
      intro s k hpos hex hs p
      cases k with
      | zero => simpa [execAll] using hs p
      | succ k =>
          show 0 ≤ (execAll (c.exec s) (cs.take k) p).balance.val
          exact ih (c.exec s) k (fun d hd => hpos d (List.mem_cons_of_mem c hd)) hex.2
            (c.exec_nonneg s (hpos c (List.mem_cons_self c cs)) hex.1 hs) p

/-! ## Facts about logs and cursors -/

theorem static_cast_int_val (n : Nat) (h : (n : Int) ≤ INT_MAX) :
    (static_cast_int n).val = n := by
  unfold INT_MAX at h
  have hmod : n % 4294967296 = n := Nat.mod_eq_of_lt (by omega)
  have hlt : n % 4294967296 < 2147483648 := by omega
  unfold static_cast_int
  rw [dif_pos hlt]
  show Int.ofNat (n % 4294967296) = n
  rw [hmod]
  rfl

/-- C1 (as amended): for two distinct accounts `a` and `b` and an amount with
`0 < amt ≤ a.balance` such that `b.balance + amt` does not exceed `INT_MAX`,
`transfer` raises nothing; afterwards the balance of `a` is its old value minus
`amt`, the balance of `b` is its old value plus `amt`, the log of `a` is its old
log followed by the one entry `(-amt, c, b)`, the log of `b` is its old log
followed by the one entry `(+amt, c, a)`, and no other object changes. -/
theorem transfer_moves_funds (s : Store) (a b : UserId) (amt : CInt) (c : String)
    (hab : a ≠ b) (hpos : 0 < amt) (hle : amt ≤ (s a).balance)
    (hfit : (s b).balance.val + amt.val ≤ INT_MAX) :
    (transfer s a b amt c).1 = none ∧
    ((transfer s a b amt c).2 a).balance.val = (s a).balance.val - amt.val ∧
    ((transfer s a b amt c).2 b).balance.val = (s b).balance.val + amt.val ∧
    (∃ t : transaction, t.balance_delta_xts.val = -amt.val ∧ t.comment = c ∧
      t.counterparty = some b ∧
      ((transfer s a b amt c).2 a).transactions = (s a).transactions ++ [t]) ∧
    (∃ t : transaction, t.balance_delta_xts.val = amt.val ∧ t.comment = c ∧
      t.counterparty = some a ∧
      ((transfer s a b amt c).2 b).transactions = (s b).transactions ++ [t]) ∧
    ((transfer s a b amt c).2 a).nickname = (s a).nickname ∧
    ((transfer s a b amt c).2 b).nickname = (s b).nickname ∧
    ∀ p, p ≠ a → p ≠ b → (transfer s a b amt c).2 p = s p := by
  have hpos1 : (0 : Int) < amt.val := by
    have := (CInt.lt_def 0 amt).1 hpos
    rwa [CInt.zero_val] at this
  have hle1 : amt.val ≤ (s a).balance.val := (CInt.le_def _ _).1 hle
  have h1 : ¬ (s a).balance < amt := by
    rw [CInt.lt_def]; omega
  have h2 : ¬ (s a).balance ≤ 0 := by
    rw [CInt.le_def, CInt.zero_val]; omega
  have hA := (s a).balance.inRange
  have hB := (s b).balance.inRange
  have hM := amt.inRange
  obtain ⟨e1, e2, e3, e4⟩ := transfer_pass s a b amt c h1 h2 hab
  refine ⟨e1, ?_, ?_, ⟨⟨-amt, c, some b⟩, ?_, rfl, rfl, ?_⟩,
    ⟨⟨amt, c, some a⟩, rfl, rfl, rfl, ?_⟩, ?_, ?_, e4⟩
  · rw [e2]
    show ((s a).balance - amt).val = _
    rw [CInt.sub_val]
    apply wrapInt_eq_self <;> unfold INT_MIN INT_MAX at * <;> omega
  · rw [e3]
    show ((s b).balance + amt).val = _
    rw [CInt.add_val]
    apply wrapInt_eq_self <;> unfold INT_MIN INT_MAX at * <;> omega
  · show (-amt).val = _
    rw [CInt.neg_val]
    apply wrapInt_eq_self <;> unfold INT_MIN INT_MAX at * <;> omega
  · rw [e2]
  · rw [e3]
  · rw [e2]
  · rw [e3]

/-- Witness for C1: `alice` sends 30 to `bob`, both freshly created. -/
theorem transfer_moves_funds_witness :
    ((0 : UserId) ≠ 1 ∧ (0 : CInt) < 30 ∧ (30 : CInt) ≤ (twoFresh.store 0).balance ∧
      (twoFresh.store 1).balance.val + (30 : CInt).val ≤ INT_MAX) ∧
    ((transfer twoFresh.store 0 1 30 "lunch").2 0).balance.val = 70 ∧
    ((transfer twoFresh.store 0 1 30 "lunch").2 1).balance.val = 130 :=
  have h := transfer_moves_funds twoFresh.store 0 1 30 "lunch" (by decide) (by decide)
    (by decide) (by decide)
  ⟨by decide, h.2.1.trans (by decide), h.2.2.1.trans (by decide)⟩

/-- C1 fails as stated: in `richWorld` the account `a` holds 100 and `b` holds
`INT_MAX`; `a.transfer(b, 1, "x")` meets `0 < 1 ≤ 100` and raises nothing, but
the balance of `b` afterwards is `INT_MIN`, not its old value plus 1. -/
theorem transfer_credit_overflows :
    (0 : UserId) ≠ 1 ∧ (0 : CInt) < 1 ∧ (1 : CInt) ≤ (richWorld.store 0).balance ∧
    (richWorld.store 1).balance.val = 2147483647 ∧
    (transfer richWorld.store 0 1 1 "x").1 = none ∧
    ((transfer richWorld.store 0 1 1 "x").2 1).balance.val = -2147483648 ∧
    ((transfer richWorld.store 0 1 1 "x").2 1).balance.val ≠
      (richWorld.store 1).balance.val + (1 : CInt).val := by
  decide

/-! ## Balance and log -/

/-- C2: in every state reached from the empty ledger by a sequence of
`get_or_create_user` and `transfer` calls (with any arguments, raising or not)
in which no `int` operation overflows, the balance of every account of the
ledger equals the exact integer sum of `balance_delta_xts` over its own log. -/
theorem balance_is_sum_of_log (calls : List Call) (hex : World.empty.Exact calls)
    (p : UserId) (hp : p ∈ (World.empty.run calls).accounts) :
    ((World.empty.run calls).store p).balance.val =
      sumDeltas ((World.empty.run calls).store p).transactions :=
  World.run_consistent calls World.empty World.empty_consistent hex p hp

/-- Witness for C2: two accounts, a transfer that succeeds and one that raises. -/
theorem balance_is_sum_of_log_witness :
    World.empty.Exact
      [.get_or_create_user "alice", .get_or_create_user "bob",
        .transfer ⟨0, 1, 30, "lunch"⟩, .transfer ⟨1, 0, 500, "rent"⟩] ∧
    (1 : UserId) ∈ (World.empty.run
      [.get_or_create_user "alice", .get_or_create_user "bob",
        .transfer ⟨0, 1, 30, "lunch"⟩, .transfer ⟨1, 0, 500, "rent"⟩]).accounts ∧
    sumDeltas ((World.empty.run
      [.get_or_create_user "alice", .get_or_create_user "bob",
        .transfer ⟨0, 1, 30, "lunch"⟩, .transfer ⟨1, 0, 500, "rent"⟩]).store 1).transactions
      = 130 :=
  ⟨by decide, by decide,
    (balance_is_sum_of_log
      [.get_or_create_user "alice", .get_or_create_user "bob",
        .transfer ⟨0, 1, 30, "lunch"⟩, .transfer ⟨1, 0, 500, "rent"⟩]
      (by decide) 1 (by decide)).symm.trans (by decide)⟩

/-! ## Failing transfers -/

/-- C3: whenever a `transfer` call raises an error (whichever of the three),
the memory when the call is left is the memory before the call: the balance and
the log of the source, of the destination and of every other account are what
they were. -/
theorem transfer_error_leaves_state (s : Store) (a b : UserId) (amt : CInt) (c : String)
    (e : transfer_error) (h : (transfer s a b amt c).1 = some e) :
    (transfer s a b amt c).2 = s ∧
    ∀ p, ((transfer s a b amt c).2 p).balance = (s p).balance ∧
      ((transfer s a b amt c).2 p).transactions = (s p).transactions := by
  have hs : (transfer s a b amt c).2 = s :=
    transfer_store_of_thrown s a b amt c (by rw [h]; simp)
  exact ⟨hs, fun p => by rw [hs]; exact ⟨rfl, rfl⟩⟩

/-- Witness for C3: `alice` asks for more than she has. -/
theorem transfer_error_leaves_state_witness :
    (transfer twoFresh.store 0 1 101 "x").1 = some (.not_enough_funds_error 100 101) ∧
    (transfer twoFresh.store 0 1 101 "x").2 = twoFresh.store :=
  ⟨by decide,
    (transfer_error_leaves_state twoFresh.store 0 1 101 "x"
      (.not_enough_funds_error 100 101) (by decide)).1⟩

/-- A call between two different objects gets its locks and runs lines 49 to 63. -/
theorem user_transfer_of_ne (s : Store) (a b : UserId) (amt : CInt) (c : String)
    (h : a ≠ b) : user_transfer s a b amt c = some (transfer s a b amt c) := by
  unfold user_transfer transfer_locks
  rw [if_neg h]

/-- A call of an object on itself never gets past its lock acquisition. -/
theorem user_transfer_self (s : Store) (a : UserId) (amt : CInt) (c : String) :
    user_transfer s a a amt c = none := by
  unfold user_transfer transfer_locks
  rw [if_pos rfl]

/-- C4, what the code does: when the amount exceeds the balance of the source, a
call to any other account raises `not_enough_funds_error` built from the
balance and the amount, with the message
`"Not enough funds: <balance> XTS available, <amount> XTS requested"`, and
leaves the memory unchanged; a call to the source itself never returns, so it
raises nothing. -/
theorem transfer_not_enough_funds (s : Store) (a b : UserId) (amt : CInt) (c : String)
    (h : (s a).balance < amt) :
    (a ≠ b →
      user_transfer s a b amt c =
        some (some (.not_enough_funds_error (s a).balance amt), s)) ∧
    (transfer_error.not_enough_funds_error (s a).balance amt).what =
      "Not enough funds: " ++ to_string (s a).balance ++ " XTS available, " ++
        to_string amt ++ " XTS requested" ∧
    user_transfer s a a amt c = none := by
  refine ⟨fun hab => ?_, rfl, user_transfer_self s a amt c⟩
  rw [user_transfer_of_ne s a b amt c hab, transfer_not_enough s a b amt c h]

/-- Witness for C4: a fresh account asked for 101 by another account, and for
500 by itself. -/
theorem transfer_not_enough_funds_witness :
    (twoFresh.store 0).balance < (101 : CInt) ∧
    user_transfer twoFresh.store 0 1 101 "x" =
      some (some (.not_enough_funds_error 100 101), twoFresh.store) ∧
    (transfer_error.not_enough_funds_error 100 101).what =
      "Not enough funds: 100 XTS available, 101 XTS requested" ∧
    (twoFresh.store 0).balance < (500 : CInt) ∧
    user_transfer twoFresh.store 0 0 500 "x" = none :=
  ⟨by decide,
    (transfer_not_enough_funds twoFresh.store 0 1 101 "x" (by decide)).1 (by decide),
    by decide, by decide,
    (transfer_not_enough_funds twoFresh.store 0 0 500 "x" (by decide)).2.2⟩

/-- C5, what the code does: a call `A.transfer(A, amt, c)` hands the same mutex
to `std::scoped_lock` twice and never returns, whatever the balance and the
amount; in particular it never raises `self_transaction`. -/
theorem transfer_to_self (s : Store) (a : UserId) (amt : CInt) (c : String) :
    transfer_locks a a = none ∧
    user_transfer s a a amt c = none ∧
    ∀ r : Store, user_transfer s a a amt c ≠ some (some .self_transaction, r) := by
  have h := user_transfer_self s a amt c
  refine ⟨by unfold transfer_locks; rw [if_pos rfl], h, ?_⟩
  intro r hr
  rw [h] at hr
  cases hr

/-- C6 (as amended): when the balance of the source is `≤ 0`, a call to any
other account raises an error, for every amount, and leaves the memory
unchanged; the error is `empty_balance` exactly when `amt ≤ balance` and
`not_enough_funds_error` exactly when `balance < amt` (so for every positive
amount). -/
theorem transfer_from_empty (s : Store) (a b : UserId) (amt : CInt) (c : String)
    (hab : a ≠ b) (h : (s a).balance ≤ 0) :
    (∃ e, user_transfer s a b amt c = some (some e, s)) ∧
    (user_transfer s a b amt c = some (some .empty_balance, s) ↔ amt ≤ (s a).balance) ∧
    (user_transfer s a b amt c =
        some (some (.not_enough_funds_error (s a).balance amt), s) ↔
      (s a).balance < amt) := by
  rw [user_transfer_of_ne s a b amt c hab]
  by_cases h1 : (s a).balance < amt
  · have h1v : (s a).balance.val < amt.val := h1
    rw [transfer_not_enough s a b amt c h1]
    refine ⟨⟨_, rfl⟩, ?_, by simp [h1]⟩
    simp only [CInt.le_def, Option.some.injEq, Prod.mk.injEq, reduceCtorEq, false_and,
      false_iff]
    omega
  · have h1v : ¬ (s a).balance.val < amt.val := h1
    rw [transfer_empty s a b amt c h1 h]
    refine ⟨⟨_, rfl⟩, ?_, by simp [h1]⟩
    simp only [CInt.le_def, true_iff]
    omega

/-- Witness for C6: `alice`, whose balance is 0, asks to send `bob` 0. -/
theorem transfer_from_empty_witness :
    ((0 : UserId) ≠ 1 ∧ (drained.store 0).balance ≤ 0 ∧ (0 : CInt) ≤ (drained.store 0).balance) ∧
    user_transfer drained.store 0 1 0 "x" = some (some .empty_balance, drained.store) :=
  ⟨by decide,
    (transfer_from_empty drained.store 0 1 0 "x" (by decide) (by decide)).2.1.2 (by decide)⟩

/-- C6 fails as stated: `alice` has balance 0 after sending her 100 to `bob`;
her next call `transfer(bob, 1, "x")` raises `not_enough_funds_error(0, 1)`,
not `empty_balance`. -/
theorem transfer_from_empty_not_enough :
    (drained.store 0).balance ≤ 0 ∧ (0 : UserId) ≠ 1 ∧
    (user_transfer drained.store 0 1 1 "x").map Prod.fst =
      some (some (.not_enough_funds_error 0 1)) ∧
    (user_transfer drained.store 0 1 1 "x").map Prod.fst ≠ some (some .empty_balance) := by
  decide

/-- C7, what the code does: for two different accounts the outcome is decided by
the first two checks in their order, `not_enough_funds_error` iff
`balance < amount`, otherwise `empty_balance` iff `balance ≤ 0` (so exactly
when `amount ≤ balance ≤ 0`), otherwise no error; a call of an account on itself
never returns, so the third check never fires and no call raises
`self_transaction`. -/
theorem transfer_check_order (s : Store) (a b : UserId) (amt : CInt) (c : String) :
    (a ≠ b →
      (user_transfer s a b amt c).map Prod.fst =
        some (if (s a).balance < amt then
            some (.not_enough_funds_error (s a).balance amt)
          else if (s a).balance ≤ 0 then some .empty_balance
          else none)) ∧
    (a ≠ b →
      ((user_transfer s a b amt c).map Prod.fst = some (some .empty_balance) ↔
        amt ≤ (s a).balance ∧ (s a).balance ≤ 0)) ∧
    user_transfer s a a amt c = none ∧
    (∀ r : Store, user_transfer s a b amt c ≠ some (some .self_transaction, r)) := by
  have key : a ≠ b → (user_transfer s a b amt c).map Prod.fst =
      some (if (s a).balance < amt then
          some (.not_enough_funds_error (s a).balance amt)
        else if (s a).balance ≤ 0 then some .empty_balance
        else none) := by
    intro hab
    rw [user_transfer_of_ne s a b amt c hab]
    by_cases h1 : (s a).balance < amt
    · rw [transfer_not_enough s a b amt c h1, if_pos h1]
      rfl
    · by_cases h2 : (s a).balance ≤ 0
      · rw [transfer_empty s a b amt c h1 h2, if_neg h1, if_pos h2]
        rfl
      · rw [if_neg h1, if_neg h2]
        show some (transfer s a b amt c).1 = some none
        rw [(transfer_pass s a b amt c h1 h2 hab).1]
  refine ⟨key, ?_, user_transfer_self s a amt c, ?_⟩
  · intro hab
    rw [key hab]
    by_cases h1 : (s a).balance < amt
    · have h1v : (s a).balance.val < amt.val := h1
      simp only [if_pos h1, CInt.le_def, Option.some.injEq, reduceCtorEq, false_iff]
      omega
    · have h1v : ¬ (s a).balance.val < amt.val := h1
      by_cases h2 : (s a).balance ≤ 0
      · simp only [if_neg h1, if_pos h2, true_iff]
        exact ⟨(CInt.le_def _ _).2 (by omega), h2⟩
      · simp only [if_neg h1, if_neg h2, Option.some.injEq, reduceCtorEq, false_iff]
        exact fun h => h2 h.2
  · intro r hr
    by_cases hab : a = b
    · subst hab
      rw [user_transfer_self s a amt c] at hr
      cases hr
    · have hk := key hab
      rw [hr] at hk
      by_cases h1 : (s a).balance < amt
      · rw [if_pos h1] at hk
        cases hk
      · by_cases h2 : (s a).balance ≤ 0
        · rw [if_neg h1, if_pos h2] at hk
          cases hk
        · rw [if_neg h1, if_neg h2] at hk
          cases hk

/-- Witness for C7: a fresh account asked for 1 by itself, and for 101, 1 by `bob`. -/
theorem transfer_check_order_witness :
    user_transfer twoFresh.store 0 0 1 "x" = none ∧
    (user_transfer twoFresh.store 1 0 101 "x").map Prod.fst =
      some (some (.not_enough_funds_error 100 101)) ∧
    (user_transfer twoFresh.store 1 0 1 "x").map Prod.fst = some none :=
  ⟨(transfer_check_order twoFresh.store 0 0 1 "x").2.2.1, by decide, by decide⟩

/-! ## Conservation and non-negativity -/

/-- C8 (as amended): for two accounts `a` and `b`, a `transfer` call
between them in either direction, with any amount, raising or not, in which no
`int` operation overflows leaves `a.balance + b.balance` as it was; hence after
any sequence of such calls made one after the other the sum of the two balances
is the initial sum. -/
theorem transfer_keeps_pair_sum (s : Store) (a b : UserId) :
    (∀ c : TransferCall,
      (c.this = a ∧ c.counterparty = b) ∨ (c.this = b ∧ c.counterparty = a) →
      c.exact s →
      (c.exec s a).balance.val + (c.exec s b).balance.val =
        (s a).balance.val + (s b).balance.val) ∧
    (∀ calls : List TransferCall,
      (∀ c ∈ calls, (c.this = a ∧ c.counterparty = b) ∨ (c.this = b ∧ c.counterparty = a)) →
      ExactAll s calls →
      (execAll s calls a).balance.val + (execAll s calls b).balance.val =
        (s a).balance.val + (s b).balance.val) :=
  ⟨fun c hdir hex => c.exec_pair_sum s a b hdir hex,
    fun calls hdir hex => execAll_pair_sum a b calls s hdir hex⟩

/-- Witness for C8: `alice` and `bob` send each other money, one call raises. -/
theorem transfer_keeps_pair_sum_witness :
    (0 : UserId) ≠ 1 ∧
    ExactAll twoFresh.store [⟨0, 1, 30, "p"⟩, ⟨1, 0, 500, "q"⟩, ⟨1, 0, 45, "r"⟩] ∧
    (execAll twoFresh.store [⟨0, 1, 30, "p"⟩, ⟨1, 0, 500, "q"⟩, ⟨1, 0, 45, "r"⟩] 0).balance.val
      = 115 ∧
    (execAll twoFresh.store [⟨0, 1, 30, "p"⟩, ⟨1, 0, 500, "q"⟩, ⟨1, 0, 45, "r"⟩] 0).balance.val +
      (execAll twoFresh.store [⟨0, 1, 30, "p"⟩, ⟨1, 0, 500, "q"⟩, ⟨1, 0, 45, "r"⟩] 1).balance.val
      = 200 :=
  ⟨by decide, by decide, by decide,
    ((transfer_keeps_pair_sum twoFresh.store 0 1).2
      [⟨0, 1, 30, "p"⟩, ⟨1, 0, 500, "q"⟩, ⟨1, 0, 45, "r"⟩] (by decide) (by decide)).trans
      (by decide)⟩

/-- C8 fails as stated: in `richWorld` the account `b` holds `INT_MAX` and `a`
holds 100; `b.transfer(a, -1, "x")` passes the three checks, `b` ends at
`INT_MIN` and `a` at 99, so the sum of the two balances changes from
`2147483747` to `-2147483549`. -/
theorem transfer_pair_sum_overflows :
    (1 : UserId) ≠ 0 ∧
    (richWorld.store 1).balance.val + (richWorld.store 0).balance.val = 2147483747 ∧
    (transfer richWorld.store 1 0 (-1) "x").1 = none ∧
    ((transfer richWorld.store 1 0 (-1) "x").2 1).balance.val +
      ((transfer richWorld.store 1 0 (-1) "x").2 0).balance.val = -2147483549 ∧
    ((transfer richWorld.store 1 0 (-1) "x").2 1).balance.val +
      ((transfer richWorld.store 1 0 (-1) "x").2 0).balance.val ≠
      (richWorld.store 1).balance.val + (richWorld.store 0).balance.val := by
  decide

/-- C9 (as amended): starting from a memory in which every balance is `≥ 0`,
after any finite sequence of `transfer` calls whose amounts are all `> 0`
(raising or not) and in which no `int` operation overflows, every balance is
`≥ 0` in every intermediate state and in the final state. -/
theorem positive_transfers_keep_nonneg (s : Store) (calls : List TransferCall)
    (hs : ∀ p, 0 ≤ (s p).balance.val) (hpos : ∀ c ∈ calls, 0 < c.amount_xts)
    (hex : ExactAll s calls) (k : Nat) (p : UserId) :
    0 ≤ (execAll s (calls.take k) p).balance.val :=
  execAll_take_nonneg calls s k hpos hex hs p

/-- Witness for C9: three calls on fresh accounts, looked at after the second. -/
theorem positive_transfers_keep_nonneg_witness :
    (∀ p, 0 ≤ ((fun _ => user.ctor "a" : Store) p).balance.val) ∧
    (∀ c ∈ ([⟨0, 1, 100, "p"⟩, ⟨0, 1, 1, "q"⟩, ⟨1, 0, 45, "r"⟩] : List TransferCall),
      0 < c.amount_xts) ∧
    ExactAll (fun _ => user.ctor "a") [⟨0, 1, 100, "p"⟩, ⟨0, 1, 1, "q"⟩, ⟨1, 0, 45, "r"⟩] ∧
    0 ≤ (execAll (fun _ => user.ctor "a")
      (([⟨0, 1, 100, "p"⟩, ⟨0, 1, 1, "q"⟩, ⟨1, 0, 45, "r"⟩] : List TransferCall).take 2)
      0).balance.val :=
  ⟨fun _ => (by decide : (0 : Int) ≤ (user.ctor "a").balance.val), by decide, by decide,
    positive_transfers_keep_nonneg (fun _ => user.ctor "a")
      [⟨0, 1, 100, "p"⟩, ⟨0, 1, 1, "q"⟩, ⟨1, 0, 45, "r"⟩]
      (fun _ => (by decide : (0 : Int) ≤ (user.ctor "a").balance.val))
      (by decide) (by decide) 2 0⟩

/-- C9 fails as stated: in `nearMax` every balance is `≥ 0` (100 everywhere,
`INT_MAX` at address 1); the call `transfer(1, "x")` from address 0 to address 1
has a positive amount and passes the three checks, and leaves the balance at
address 1 at `INT_MIN < 0`. -/
theorem positive_transfer_goes_negative :
    (0 ≤ (nearMax 0).balance.val ∧ 0 ≤ (nearMax 1).balance.val ∧
      ∀ p, 0 ≤ (nearMax p).balance.val) ∧
    (0 : CInt) < 1 ∧
    (transfer nearMax 0 1 1 "x").1 = none ∧
    ((transfer nearMax 0 1 1 "x").2 1).balance.val = -2147483648 ∧
    ((execAll nearMax [⟨0, 1, 1, "x"⟩]) 1).balance.val < 0 := by
  refine ⟨⟨by decide, by decide, ?_⟩, by decide, by decide, by decide, by decide⟩
  intro p
  unfold nearMax
  split <;> decide

/-! ## Cursors -/

theorem longLog_length (n : Nat) : (longLog n 0).transactions.length = n + 1 := by
  show (initialDeposit "alice" :: List.replicate n _).length = n + 1
  rw [List.length_cons, List.length_replicate]

theorem lookup_append_of_none (name : String) (p : UserId) :
    ∀ l : List (String × UserId), l.lookup name = none →
      (l ++ [(name, p)]).lookup name = some p := by
  intro l
  induction l with
  | nil => intro _; simp [List.lookup]
  | cons x xs ih =>
      intro h
      obtain ⟨k, v⟩ := x
      by_cases hk : name = k
      · subst hk
        simp [List.lookup] at h
      · have hbeq : (name == k) = false := by simpa using hk
        simp only [List.lookup, List.cons_append, hbeq] at h ⊢
        exact ih h

theorem mem_of_lookup_eq_some (name : String) (p : UserId) :
    ∀ l : List (String × UserId), l.lookup name = some p → (name, p) ∈ l := by
  intro l
  induction l with
  | nil => intro h; simp [List.lookup] at h
  | cons x xs ih =>
      intro h
      obtain ⟨k, v⟩ := x
      by_cases hk : name = k
      · subst hk
        simp [List.lookup] at h
        simp [h]
      · have hbeq : (name == k) = false := by simpa using hk
        simp only [List.lookup, hbeq] at h
        exact List.mem_cons_of_mem _ (ih h)

theorem get_or_create_user_of_some (w : World) (name : String) (p : UserId)
    (h : w.clients.lookup name = some p) : get_or_create_user w name = (p, w) := by
  unfold get_or_create_user
  rw [h]

theorem get_or_create_user_of_none (w : World) (name : String)
    (h : w.clients.lookup name = none) :
    get_or_create_user w name =
      (w.fresh,
        ⟨Function.update w.store w.fresh (user.ctor name), w.fresh + 1,
          w.clients ++ [(name, w.fresh)]⟩) := by
  unfold get_or_create_user
  rw [h]

theorem World.step_wellFormed (w : World) (c : Call) (hw : w.wellFormed) :
    (w.step c).wellFormed := by
  cases c with
  | get_or_create_user name =>
      show (get_or_create_user w name).2.wellFormed
      cases hlook : w.clients.lookup name with
      | some q =>
          rw [get_or_create_user_of_some w name q hlook]
          exact hw
      | none =>
          rw [get_or_create_user_of_none w name hlook]
          intro p hp
          simp only [World.accounts, List.map_append, List.mem_append, List.map_cons,
            List.map_nil, List.mem_singleton] at hp
          show p < w.fresh + 1
          rcases hp with hp | hp
          · exact Nat.lt_succ_of_lt (hw p hp)
          · rw [hp]
            exact Nat.lt_succ_self _
  | transfer t => exact hw

theorem World.run_wellFormed (calls : List Call) :
    ∀ w : World, w.wellFormed → (w.run calls).wellFormed := by
  induction calls with
  | nil => intro w hw; exact hw
  | cons c cs ih => intro w hw; exact ih (w.step c) (w.step_wellFormed c hw)

theorem World.empty_wellFormed : World.empty.wellFormed := by
  intro p hp
  simp [World.accounts, World.empty] at hp

/-! ## Creating accounts -/

/-- C11: in every state of a ledger (reached from the empty ledger by any
calls) and for every name not registered in it, `get_or_create_user(name)`
registers exactly one new entry, under that name; the new account has that
name, balance 100 and a log of exactly one transaction with delta 100, comment
`"Initial deposit for " + name` and null counterparty; every account already in
the ledger keeps its name, balance and log. -/
theorem get_or_create_user_new (calls : List Call) (name : String)
    (h : (World.empty.run calls).clients.lookup name = none) :
    (get_or_create_user (World.empty.run calls) name).2.clients =
      (World.empty.run calls).clients ++
        [(name, (get_or_create_user (World.empty.run calls) name).1)] ∧
    (get_or_create_user (World.empty.run calls) name).1 ∉ (World.empty.run calls).accounts ∧
    (get_or_create_user (World.empty.run calls) name).2.store
        (get_or_create_user (World.empty.run calls) name).1 =
      ⟨name, 100, [⟨100, "Initial deposit for " ++ name, none⟩]⟩ ∧
    ∀ p ∈ (World.empty.run calls).accounts,
      (get_or_create_user (World.empty.run calls) name).2.store p =
        (World.empty.run calls).store p := by
  have hwf := World.run_wellFormed calls World.empty World.empty_wellFormed
  rw [get_or_create_user_of_none _ name h]
  refine ⟨rfl, ?_, ?_, ?_⟩
  · intro hmem
    exact Nat.lt_irrefl _ (hwf _ hmem)
  · show Function.update _ _ _ _ = _
    rw [Function.update_same]
    rfl
  · intro p hp
    show Function.update _ _ _ _ = _
    rw [Function.update_noteq (Nat.ne_of_lt (hwf p hp))]

/-- Witness for C11: `carol` joins a ledger in which `alice` has sent 30 to `bob`. -/
theorem get_or_create_user_new_witness :
    (World.empty.run [.get_or_create_user "alice", .get_or_create_user "bob",
      .transfer ⟨0, 1, 30, "lunch"⟩]).clients.lookup "carol" = none ∧
    (get_or_create_user (World.empty.run [.get_or_create_user "alice",
      .get_or_create_user "bob", .transfer ⟨0, 1, 30, "lunch"⟩]) "carol").2.clients =
      [("alice", 0), ("bob", 1), ("carol", 2)] ∧
    ((get_or_create_user (World.empty.run [.get_or_create_user "alice",
      .get_or_create_user "bob", .transfer ⟨0, 1, 30, "lunch"⟩]) "carol").2.store 0).balance.val
      = 70 :=
  have h := get_or_create_user_new [.get_or_create_user "alice", .get_or_create_user "bob",
    .transfer ⟨0, 1, 30, "lunch"⟩] "carol" (by decide)
  ⟨by decide, h.1.trans (by decide), by rw [h.2.2.2 0 (by decide)]; decide⟩

/-- C13: on an empty ledger `get_or_create_user("alice")` gives an account with
balance 100; then `alice.transfer(get_or_create_user("bob"), 30, "lunch")`
raises nothing and leaves `alice` with balance 70 and the log
`[(+100, deposit, null), (-30, "lunch", bob)]` and `bob` with balance 130 and
the log `[(+100, deposit, null), (+30, "lunch", alice)]`. -/
theorem alice_bob_lunch :
    (get_or_create_user World.empty "alice").1 = 0 ∧
    ((get_or_create_user World.empty "alice").2.store 0).balance.val = 100 ∧
    (get_or_create_user (get_or_create_user World.empty "alice").2 "bob").1 = 1 ∧
    (transfer (get_or_create_user (get_or_create_user World.empty "alice").2 "bob").2.store
      0 1 30 "lunch").1 = none ∧
    (transfer (get_or_create_user (get_or_create_user World.empty "alice").2 "bob").2.store
      0 1 30 "lunch").2 0 =
      ⟨"alice", 70,
        [⟨100, "Initial deposit for alice", none⟩, ⟨-30, "lunch", some 1⟩]⟩ ∧
    (transfer (get_or_create_user (get_or_create_user World.empty "alice").2 "bob").2.store
      0 1 30 "lunch").2 1 =
      ⟨"bob", 130,
        [⟨100, "Initial deposit for bob", none⟩, ⟨30, "lunch", some 0⟩]⟩ ∧
    ((transfer (get_or_create_user (get_or_create_user World.empty "alice").2 "bob").2.store
      0 1 30 "lunch").2 0).balance.val = 70 ∧
    ((transfer (get_or_create_user (get_or_create_user World.empty "alice").2 "bob").2.store
      0 1 30 "lunch").2 1).balance.val = 130 := by
  decide

/-! ## Conservation over the whole ledger -/

theorem sumBalances_congr (s1 s2 : Store) (l : List UserId)
    (h : ∀ p ∈ l, (s2 p).balance.val = (s1 p).balance.val) :
    sumBalances s2 l = sumBalances s1 l := by
  induction l with
  | nil => rfl
  | cons x xs ih =>
      show (s2 x).balance.val + sumBalances s2 xs = (s1 x).balance.val + sumBalances s1 xs
      rw [h x (List.mem_cons_self x xs), ih (fun p hp => h p (List.mem_cons_of_mem x hp))]

theorem sumBalances_append (s : Store) (l1 l2 : List UserId) :
    sumBalances s (l1 ++ l2) = sumBalances s l1 + sumBalances s l2 := by
  simp [sumBalances]

/-- Changing one balance of a duplicate-free list of accounts by `d` changes the sum by `d`. -/
theorem sumBalances_shift (s1 s2 : Store) (a : UserId) (d : Int) (l : List UserId)
    (hnd : l.Nodup) (ha : a ∈ l) (hsa : (s2 a).balance.val = (s1 a).balance.val + d)
    (hoth : ∀ p ∈ l, p ≠ a → (s2 p).balance.val = (s1 p).balance.val) :
    sumBalances s2 l = sumBalances s1 l + d := by
  induction l with
  | nil => simp at ha
  | cons x xs ih =>
      obtain ⟨hx, hxs⟩ := List.nodup_cons.1 hnd
      show (s2 x).balance.val + sumBalances s2 xs = (s1 x).balance.val + sumBalances s1 xs + d
      by_cases hxa : x = a
      · subst hxa
        rw [hsa, sumBalances_congr s1 s2 xs (fun p hp =>
          hoth p (List.mem_cons_of_mem x hp) (fun h => hx (h ▸ hp)))]
        omega
      · have hmem : a ∈ xs := by
          rcases List.mem_cons.1 ha with h | h
          · exact absurd h.symm hxa
          · exact h
        rw [hoth x (List.mem_cons_self x xs) hxa,
          ih hxs hmem (fun p hp => hoth p (List.mem_cons_of_mem x hp))]
        omega

/-- One transfer call between two accounts of a duplicate-free list, without
overflow, keeps the sum of the balances over the list. -/
theorem TransferCall.exec_sumBalances (c : TransferCall) (s : Store) (l : List UserId)
    (hnd : l.Nodup) (ha : c.this ∈ l) (hb : c.counterparty ∈ l) (hex : c.exact s) :
    sumBalances (c.exec s) l = sumBalances s l := by
  rcases c.exec_cases s with ⟨-, hs⟩ | ⟨hthrown, -, -, hne, e2, e3, e4⟩
  · rw [hs]
  · obtain ⟨⟨x1, x2⟩, ⟨x3, x4⟩, -⟩ := hex hthrown
    have v2 : (c.exec s c.this).balance.val = (s c.this).balance.val + -c.amount_xts.val := by
      rw [e2]
      show ((s c.this).balance - c.amount_xts).val = _
      rw [CInt.sub_val, wrapInt_eq_self x1 x2]
      omega
    have v3 : (c.exec s c.counterparty).balance.val =
        (s c.counterparty).balance.val + c.amount_xts.val := by
      rw [e3]
      show ((s c.counterparty).balance + c.amount_xts).val = _
      rw [CInt.add_val, wrapInt_eq_self x3 x4]
    have step1 : sumBalances (Function.update s c.this (c.exec s c.this)) l =
        sumBalances s l + -c.amount_xts.val := by
      apply sumBalances_shift s _ c.this _ l hnd ha
      · rw [Function.update_same]
        exact v2
      · intro p _ hp
        rw [Function.update_noteq hp]
    have step2 : sumBalances (c.exec s) l =
        sumBalances (Function.update s c.this (c.exec s c.this)) l + c.amount_xts.val := by
      apply sumBalances_shift _ _ c.counterparty _ l hnd hb
      · rw [Function.update_noteq (fun h => hne h.symm)]
        exact v3
      · intro p _ hp
        by_cases hpa : p = c.this
        · rw [hpa, Function.update_same]
        · rw [Function.update_noteq hpa, e4 p hpa hp]
    rw [step2, step1]
    omega

theorem World.step_balanced (w : World) (c : Call) (hw : w.balanced)
    (hadm : w.admits c) (hex : w.exact c) : (w.step c).balanced := by
  obtain ⟨hwf, hnd, hsum⟩ := hw
  refine ⟨w.step_wellFormed c hwf, ?_⟩
  cases c with
  | get_or_create_user name =>
      show (get_or_create_user w name).2.accounts.Nodup ∧
        sumBalances (get_or_create_user w name).2.store (get_or_create_user w name).2.accounts =
          100 * ((get_or_create_user w name).2.accounts.length : Int)
      cases hlook : w.clients.lookup name with
      | some q =>
          rw [get_or_create_user_of_some w name q hlook]
          exact ⟨hnd, hsum⟩
      | none =>
          rw [get_or_create_user_of_none w name hlook]
          have hfresh : w.fresh ∉ w.accounts := fun h => Nat.lt_irrefl _ (hwf _ h)
          have hacc : (World.mk (Function.update w.store w.fresh (user.ctor name))
              (w.fresh + 1) (w.clients ++ [(name, w.fresh)])).accounts =
              w.accounts ++ [w.fresh] := by
            simp [World.accounts]
          rw [hacc]
          refine ⟨?_, ?_⟩
          · rw [List.nodup_append]
            refine ⟨hnd, List.nodup_singleton _, ?_⟩
            intro x hx hx1
            rw [List.mem_singleton] at hx1
            exact hfresh (hx1 ▸ hx)
          · show sumBalances (Function.update w.store w.fresh (user.ctor name))
              (w.accounts ++ [w.fresh]) = _
            have hold : ∀ p ∈ w.accounts,
                (Function.update w.store w.fresh (user.ctor name) p).balance.val =
                  (w.store p).balance.val := by
              intro p hp
              have hne : p ≠ w.fresh := fun h => hfresh (h ▸ hp)
              rw [Function.update_noteq hne]
            rw [sumBalances_append, sumBalances_congr w.store _ w.accounts hold, hsum]
            simp only [sumBalances, List.map_cons, List.map_nil, List.sum_cons, List.sum_nil,
              Function.update_same, List.length_append, List.length_singleton]
            have h100 : (user.ctor name).balance.val = 100 := rfl
            rw [h100]
            push_cast
            omega
  | transfer t =>
      exact ⟨hnd, by
        show sumBalances (t.exec w.store) w.accounts = _
        rw [t.exec_sumBalances w.store w.accounts hnd hadm.1 hadm.2 hex, hsum]
        rfl⟩

theorem World.run_balanced (calls : List Call) :
    ∀ w : World, w.balanced → w.Admits calls → w.Exact calls → (w.run calls).balanced := by
  induction calls with
  | nil => intro w hw _ _; exact hw
  | cons c cs ih =>
      intro w hw hadm hex
      exact ih (w.step c) (w.step_balanced c hw hadm.1 hex.1) hadm.2 hex.2

theorem World.empty_balanced : World.empty.balanced :=
  ⟨World.empty_wellFormed, by simp [World.accounts, World.empty],
    by simp [World.accounts, World.empty, sumBalances]⟩

/-- C19: in every state reached from the empty ledger by a sequence of
`get_or_create_user` calls and `transfer` calls between accounts of the ledger
(any amounts, raising or not) in which no `int` operation overflows, the sum of
the balances of all accounts of the ledger is 100 times their number. -/
theorem ledger_total_is_100_per_account (calls : List Call)
    (hadm : World.empty.Admits calls) (hex : World.empty.Exact calls) :
    sumBalances (World.empty.run calls).store (World.empty.run calls).accounts =
      100 * ((World.empty.run calls).accounts.length : Int) :=
  (World.run_balanced calls World.empty World.empty_balanced hadm hex).2.2

/-- Witness for C19: three accounts, two transfers that succeed (one of a
negative amount) and one that raises; the balances 70 + 330 - 100 sum to 300. -/
theorem ledger_total_is_100_per_account_witness :
    World.empty.Admits
      [.get_or_create_user "alice", .get_or_create_user "bob", .transfer ⟨0, 1, 30, "lunch"⟩,
        .get_or_create_user "carol", .transfer ⟨1, 2, -200, "pull"⟩,
        .transfer ⟨2, 0, 1, "none"⟩] ∧
    World.empty.Exact
      [.get_or_create_user "alice", .get_or_create_user "bob", .transfer ⟨0, 1, 30, "lunch"⟩,
        .get_or_create_user "carol", .transfer ⟨1, 2, -200, "pull"⟩,
        .transfer ⟨2, 0, 1, "none"⟩] ∧
    (World.empty.run
      [.get_or_create_user "alice", .get_or_create_user "bob", .transfer ⟨0, 1, 30, "lunch"⟩,
        .get_or_create_user "carol", .transfer ⟨1, 2, -200, "pull"⟩,
        .transfer ⟨2, 0, 1, "none"⟩]).accounts.map
      (fun p => ((World.empty.run
        [.get_or_create_user "alice", .get_or_create_user "bob",
          .transfer ⟨0, 1, 30, "lunch"⟩, .get_or_create_user "carol",
          .transfer ⟨1, 2, -200, "pull"⟩, .transfer ⟨2, 0, 1, "none"⟩]).store p).balance.val)
      = [70, 330, -100] ∧
    sumBalances (World.empty.run
      [.get_or_create_user "alice", .get_or_create_user "bob", .transfer ⟨0, 1, 30, "lunch"⟩,
        .get_or_create_user "carol", .transfer ⟨1, 2, -200, "pull"⟩,
        .transfer ⟨2, 0, 1, "none"⟩]).store [0, 1, 2] = 300 :=
  ⟨by decide, by decide, by decide,
    (ledger_total_is_100_per_account
      [.get_or_create_user "alice", .get_or_create_user "bob", .transfer ⟨0, 1, 30, "lunch"⟩,
        .get_or_create_user "carol", .transfer ⟨1, 2, -200, "pull"⟩,
        .transfer ⟨2, 0, 1, "none"⟩] (by decide) (by decide)).trans (by decide)⟩

/-! ## Initial deposits -/

/-- What a call that passes the checks does to each object: the name and the old
log stay, `newEntries` is appended. -/
theorem TransferCall.exec_newEntries (c : TransferCall) (s : Store)
    (hthrown : c.thrown s = none) (p : UserId) :
    (c.exec s p).nickname = (s p).nickname ∧
    (c.exec s p).transactions = (s p).transactions ++ c.newEntries p := by
  rcases c.exec_cases s with ⟨h, -⟩ | ⟨-, -, -, hne, e2, e3, e4⟩
  · exact absurd hthrown h
  · unfold TransferCall.newEntries
    by_cases hpa : p = c.this
    · rw [if_pos hpa, hpa, e2]
      exact ⟨rfl, rfl⟩
    · by_cases hpb : p = c.counterparty
      · rw [if_neg hpa, if_pos hpb, hpb, e3]
        exact ⟨rfl, rfl⟩
      · rw [if_neg hpa, if_neg hpb, e4 p hpa hpb, List.append_nil]
        exact ⟨rfl, rfl⟩

theorem TransferCall.newEntries_counterparty (c : TransferCall) (p : UserId) :
    ∀ t ∈ c.newEntries p, t.counterparty = some c.this ∨ t.counterparty = some c.counterparty := by
  intro t ht
  unfold TransferCall.newEntries at ht
  split at ht
  · rw [List.mem_singleton] at ht
    rw [ht]
    exact Or.inr rfl
  · split at ht
    · rw [List.mem_singleton] at ht
      rw [ht]
      exact Or.inl rfl
    · simp at ht

/-- Any call keeps each name and appends to each log only entries that have a
counterparty. -/
theorem TransferCall.exec_user (c : TransferCall) (s : Store) (p : UserId) :
    (c.exec s p).nickname = (s p).nickname ∧
    ∃ new, (c.exec s p).transactions = (s p).transactions ++ new ∧
      ∀ t ∈ new, t.counterparty ≠ none := by
  by_cases hthrown : c.thrown s = none
  · obtain ⟨h1, h2⟩ := c.exec_newEntries s hthrown p
    refine ⟨h1, c.newEntries p, h2, ?_⟩
    intro t ht
    rcases c.newEntries_counterparty p t ht with h | h <;> rw [h] <;> simp
  · unfold TransferCall.exec
    rw [transfer_store_of_thrown s _ _ _ _ hthrown]
    exact ⟨rfl, [], by simp, by simp⟩

theorem World.step_seeded (w : World) (c : Call) (hwf : w.wellFormed) (hw : w.seeded) :
    (w.step c).seeded := by
  cases c with
  | get_or_create_user name =>
      show (get_or_create_user w name).2.seeded
      cases hlook : w.clients.lookup name with
      | some q =>
          rw [get_or_create_user_of_some w name q hlook]
          exact hw
      | none =>
          rw [get_or_create_user_of_none w name hlook]
          intro n p hp
          show (Function.update w.store w.fresh (user.ctor name) p).nickname = n ∧
            ∃ rest, (Function.update w.store w.fresh (user.ctor name) p).transactions =
              initialDeposit n :: rest ∧ ∀ t ∈ rest, t.counterparty ≠ none
          have hp1 : (n, p) ∈ w.clients ++ [(name, w.fresh)] := hp
          rw [List.mem_append, List.mem_singleton] at hp1
          rcases hp1 with hold | hnew
          · have hacc : p ∈ w.accounts := List.mem_map_of_mem Prod.snd hold
            rw [Function.update_noteq (Nat.ne_of_lt (hwf p hacc))]
            exact hw n p hold
          · obtain ⟨hn, hpf⟩ := Prod.mk.inj hnew
            rw [hpf, hn, Function.update_same]
            exact ⟨rfl, [], rfl, by simp⟩
  | transfer t =>
      intro n p hp
      obtain ⟨hname, rest, hlog, hrest⟩ := hw n p hp
      obtain ⟨e1, new, e2, hnew⟩ := t.exec_user w.store p
      show (t.exec w.store p).nickname = n ∧
        ∃ rest, (t.exec w.store p).transactions = initialDeposit n :: rest ∧
          ∀ t ∈ rest, t.counterparty ≠ none
      refine ⟨e1.trans hname, rest ++ new, ?_, ?_⟩
      · rw [e2, hlog, List.cons_append]
      · intro x hx
        rcases List.mem_append.1 hx with h | h
        · exact hrest x h
        · exact hnew x h

theorem World.run_seeded (calls : List Call) :
    ∀ w : World, w.wellFormed → w.seeded → (w.run calls).seeded := by
  induction calls with
  | nil => intro w _ hw; exact hw
  | cons c cs ih =>
      intro w hwf hw
      exact ih (w.step c) (w.step_wellFormed c hwf) (w.step_seeded c hwf hw)

theorem World.empty_seeded : World.empty.seeded := by
  intro n p hp
  simp [World.empty] at hp

theorem World.run_replicate_of_some (w : World) (name : String) (p : UserId)
    (h : w.clients.lookup name = some p) :
    ∀ n, w.run (List.replicate n (.get_or_create_user name)) = w := by
  intro n
  induction n with
  | zero => rfl
  | succ n ih =>
      show (w.step (.get_or_create_user name)).run _ = w
      have hstep : w.step (.get_or_create_user name) = w := by
        show (get_or_create_user w name).2 = w
        rw [get_or_create_user_of_some w name p h]
      rw [hstep]
      exact ih

/-- After a call the name is registered, with the object the call returned. -/
theorem get_or_create_user_lookup (w : World) (name : String) :
    (get_or_create_user w name).2.clients.lookup name = some (get_or_create_user w name).1 := by
  cases hlook : w.clients.lookup name with
  | some q =>
      rw [get_or_create_user_of_some w name q hlook]
      exact hlook
  | none =>
      rw [get_or_create_user_of_none w name hlook]
      exact lookup_append_of_none name w.fresh w.clients hlook

/-- C12: in every state of a ledger (reached from the empty ledger by any
calls) and for every name registered in it, `get_or_create_user(name)` returns
the account registered under that name and leaves the ledger and the memory as
they are, and so does any number of such calls; that account carries the name,
and its log holds exactly one entry without counterparty, the initial deposit
for the name, at index 0.  For any name, a second call returns the object the
first call returned and changes nothing. -/
theorem get_or_create_user_existing (calls : List Call) (name : String) (p : UserId)
    (h : (World.empty.run calls).clients.lookup name = some p) :
    get_or_create_user (World.empty.run calls) name = (p, World.empty.run calls) ∧
    (∀ n, (World.empty.run calls).run (List.replicate n (.get_or_create_user name)) =
      World.empty.run calls) ∧
    (name, p) ∈ (World.empty.run calls).clients ∧
    ((World.empty.run calls).store p).nickname = name ∧
    ((World.empty.run calls).store p).transactions[0]? =
      some ⟨100, "Initial deposit for " ++ name, none⟩ ∧
    entriesWith none ((World.empty.run calls).store p).transactions =
      [⟨100, "Initial deposit for " ++ name, none⟩] ∧
    (∀ other : String,
      get_or_create_user (get_or_create_user (World.empty.run calls) other).2 other =
        get_or_create_user (World.empty.run calls) other) := by
  have hmem := mem_of_lookup_eq_some name p _ h
  have hwf := World.run_wellFormed calls World.empty World.empty_wellFormed
  obtain ⟨hname, rest, hlog, hrest⟩ :=
    World.run_seeded calls World.empty World.empty_wellFormed World.empty_seeded name p hmem
  refine ⟨get_or_create_user_of_some _ name p h,
    World.run_replicate_of_some _ name p h, hmem, hname, ?_, ?_,
    fun other => get_or_create_user_of_some _ other _ (get_or_create_user_lookup _ other)⟩
  · rw [hlog, List.getElem?_cons_zero]
    rfl
  · rw [hlog]
    unfold entriesWith
    rw [List.filter_cons_of_pos (by simp [initialDeposit, transaction.ctor])]
    have hnil : rest.filter (fun t => decide (t.counterparty = none)) = [] := by
      rw [List.filter_eq_nil_iff]
      intro t ht
      simpa using hrest t ht
    rw [hnil]
    rfl

/-- Witness for C12: `bob` is asked for again after a transfer. -/
theorem get_or_create_user_existing_witness :
    (World.empty.run [.get_or_create_user "alice", .get_or_create_user "bob",
      .transfer ⟨0, 1, 30, "lunch"⟩]).clients.lookup "bob" = some 1 ∧
    (get_or_create_user (World.empty.run [.get_or_create_user "alice",
      .get_or_create_user "bob", .transfer ⟨0, 1, 30, "lunch"⟩]) "bob").1 = 1 ∧
    ((World.empty.run [.get_or_create_user "alice", .get_or_create_user "bob",
      .transfer ⟨0, 1, 30, "lunch"⟩]).store 1).transactions =
      [⟨100, "Initial deposit for bob", none⟩, ⟨30, "lunch", some 0⟩] :=
  have h := get_or_create_user_existing [.get_or_create_user "alice",
    .get_or_create_user "bob", .transfer ⟨0, 1, 30, "lunch"⟩] "bob" 1 (by decide)
  ⟨by decide, congrArg Prod.fst h.1, by decide⟩

/-! ## Double entry -/

theorem CInt.neg_neg (x : CInt) : -(-x) = x := by
  apply CInt.ext_val
  have h := x.inRange
  rw [CInt.neg_val, CInt.neg_val]
  unfold wrapInt
  unfold INT_MIN INT_MAX at h
  omega

/-- The `int` negation is the exact opposite except for `INT_MIN`. -/
theorem CInt.neg_val_exact (x : CInt) (h : x.val ≠ INT_MIN) : (-x).val = -x.val := by
  have hr := x.inRange
  rw [CInt.neg_val]
  apply wrapInt_eq_self <;> unfold INT_MIN INT_MAX at * <;> omega

theorem entriesWith_append (q : Option UserId) (l1 l2 : List transaction) :
    entriesWith q (l1 ++ l2) = entriesWith q l1 ++ entriesWith q l2 := by
  simp [entriesWith]

theorem entriesWith_eq_nil (q : Option UserId) (l : List transaction)
    (h : ∀ t ∈ l, t.counterparty ≠ q) : entriesWith q l = [] := by
  unfold entriesWith
  rw [List.filter_eq_nil_iff]
  intro t ht
  simpa using h t ht

/-- The entries one passing call appends to two different logs mirror each other. -/
theorem TransferCall.newEntries_mirror (c : TransferCall) (hne : c.this ≠ c.counterparty)
    (a b : UserId) (hab : a ≠ b) :
    entriesWith (some b) (c.newEntries a) =
      (entriesWith (some a) (c.newEntries b)).map (transaction.mirrored b) := by
  have hne1 : c.counterparty ≠ c.this := fun h => hne h.symm
  have hba : b ≠ a := fun h => hab h.symm
  unfold TransferCall.newEntries
  by_cases ha1 : a = c.this
  · by_cases hb2 : b = c.counterparty
    · subst ha1
      subst hb2
      simp [entriesWith, transaction.mirrored, hne1]
    · have hb1 : b ≠ c.this := fun h => hab (ha1.trans h.symm)
      have hcb : c.counterparty ≠ b := fun h => hb2 h.symm
      simp [entriesWith, ha1, hb1, hb2, hcb, hne1]
  · by_cases ha2 : a = c.counterparty
    · by_cases hb1 : b = c.this
      · subst ha2
        subst hb1
        simp [entriesWith, transaction.mirrored, hne1, CInt.neg_neg]
      · have hb2 : b ≠ c.counterparty := fun h => hab (ha2.trans h.symm)
        have hcb : c.this ≠ b := fun h => hb1 h.symm
        simp [entriesWith, ha1, ha2, hb1, hb2, hcb, hne1]
    · have hca1 : c.this ≠ a := fun h => ha1 h.symm
      have hca2 : c.counterparty ≠ a := fun h => ha2 h.symm
      by_cases hb1 : b = c.this
      · simp [entriesWith, ha1, ha2, hb1, hca2, hne1]
      · by_cases hb2 : b = c.counterparty
        · simp [entriesWith, ha1, ha2, hb1, hb2, hca1, hne1]
        · simp [entriesWith, ha1, ha2, hb1, hb2]

theorem World.step_mirror (w : World) (c : Call) (hwf : w.wellFormed) (hm : w.mirror)
    (hadm : w.admits c) : (w.step c).mirror := by
  obtain ⟨hcp, hmir⟩ := hm
  cases c with
  | get_or_create_user name =>
      show (get_or_create_user w name).2.mirror
      cases hlook : w.clients.lookup name with
      | some q =>
          rw [get_or_create_user_of_some w name q hlook]
          exact ⟨hcp, hmir⟩
      | none =>
          rw [get_or_create_user_of_none w name hlook]
          have hnew : (Function.update w.store w.fresh (user.ctor name) w.fresh).transactions =
              [initialDeposit name] := by
            rw [Function.update_same]
            rfl
          have hold : ∀ q, q ≠ w.fresh →
              Function.update w.store w.fresh (user.ctor name) q = w.store q :=
            fun q hq => Function.update_noteq hq _ _
          have hnone : ∀ q : Option UserId, q ≠ none →
              entriesWith q [initialDeposit name] = [] := by
            intro q hq
            apply entriesWith_eq_nil
            intro t ht
            rw [List.mem_singleton] at ht
            rw [ht]
            exact fun h => hq h.symm
          have hfar : ∀ q, entriesWith (some w.fresh) (w.store q).transactions = [] := by
            intro q
            apply entriesWith_eq_nil
            intro t ht h
            exact Nat.lt_irrefl _ (hcp q t ht w.fresh h)
          refine ⟨?_, ?_⟩
          · intro q t ht r hr
            show r < w.fresh + 1
            by_cases hq : q = w.fresh
            · have ht1 : t ∈ (Function.update w.store w.fresh (user.ctor name)
                  w.fresh).transactions := hq ▸ ht
              rw [hnew, List.mem_singleton] at ht1
              rw [ht1] at hr
              cases hr
            · have ht1 : t ∈ (Function.update w.store w.fresh (user.ctor name) q).transactions :=
                ht
              rw [hold q hq] at ht1
              exact Nat.lt_succ_of_lt (hcp q t ht1 r hr)
          · intro a b ha hb hab
            have ha1 : a < w.fresh + 1 := ha
            have hb1 : b < w.fresh + 1 := hb
            show entriesWith (some b)
                (Function.update w.store w.fresh (user.ctor name) a).transactions =
              (entriesWith (some a)
                (Function.update w.store w.fresh (user.ctor name) b).transactions).map
                (transaction.mirrored b)
            by_cases haf : a = w.fresh
            · have hbf : b ≠ w.fresh := fun h => hab (haf.trans h.symm)
              rw [haf, hnew, hold b hbf, hnone (some b) (by simp), hfar b]
              rfl
            · by_cases hbf : b = w.fresh
              · rw [hbf, hnew, hold a haf, hnone (some a) (by simp), hfar a]
                rfl
              · rw [hold a haf, hold b hbf]
                exact hmir a b (Nat.lt_of_le_of_ne (Nat.le_of_lt_succ ha1) haf)
                  (Nat.lt_of_le_of_ne (Nat.le_of_lt_succ hb1) hbf) hab
  | transfer t =>
      have hthis : t.this < w.fresh := hwf _ hadm.1
      have hcpy : t.counterparty < w.fresh := hwf _ hadm.2
      by_cases hthrown : t.thrown w.store = none
      · have hnew := fun p => (t.exec_newEntries w.store hthrown p).2
        have hne : t.this ≠ t.counterparty :=
          ((transfer_none_iff w.store t.this t.counterparty t.amount_xts t.comment).1
            hthrown).2.2
        refine ⟨?_, ?_⟩
        · intro q x hx r hr
          have hx1 : x ∈ (t.exec w.store q).transactions := hx
          rw [hnew q, List.mem_append] at hx1
          show r < w.fresh
          rcases hx1 with h | h
          · exact hcp q x h r hr
          · rcases t.newEntries_counterparty q x h with h1 | h1
            · rw [h1] at hr
              cases hr
              exact hthis
            · rw [h1] at hr
              cases hr
              exact hcpy
        · intro a b ha hb hab
          show entriesWith (some b) (t.exec w.store a).transactions =
            (entriesWith (some a) (t.exec w.store b).transactions).map (transaction.mirrored b)
          rw [hnew a, hnew b, entriesWith_append, entriesWith_append, List.map_append,
            hmir a b ha hb hab, t.newEntries_mirror hne a b hab]
      · have hsame : (w.step (.transfer t)) = w := by
          show World.mk (t.exec w.store) w.fresh w.clients = w
          unfold TransferCall.exec
          rw [transfer_store_of_thrown w.store _ _ _ _ hthrown]
        rw [hsame]
        exact ⟨hcp, hmir⟩

theorem World.run_mirror (calls : List Call) :
    ∀ w : World, w.wellFormed → w.mirror → w.Admits calls → (w.run calls).mirror := by
  induction calls with
  | nil => intro w _ hw _; exact hw
  | cons c cs ih =>
      intro w hwf hw hadm
      exact ih (w.step c) (w.step_wellFormed c hwf) (w.step_mirror c hwf hw hadm.1) hadm.2

theorem World.empty_mirror : World.empty.mirror :=
  ⟨fun q t ht => by simp [World.empty] at ht, fun a b ha => by simp [World.empty] at ha⟩

/-- C20 (as amended): in every state reached from the empty ledger by
`get_or_create_user` calls and `transfer` calls between accounts of the ledger,
for every two distinct accounts `a` and `b` the entries of the log of `a` with
counterparty `b` and the entries of the log of `b` with counterparty `a` have the
same length and agree entry by entry: equal comments, and the delta on one side
is the `int` negation of the delta on the other, which is its exact opposite
unless that delta is `INT_MIN`; and in the log of every account the entry at
index 0 is the initial deposit and is the only entry without counterparty. -/
theorem double_entry_mirror (calls : List Call) (hadm : World.empty.Admits calls) :
    (∀ a b, a ∈ (World.empty.run calls).accounts → b ∈ (World.empty.run calls).accounts →
      a ≠ b →
      (entriesWith (some b) ((World.empty.run calls).store a).transactions).length =
        (entriesWith (some a) ((World.empty.run calls).store b).transactions).length ∧
      ∀ (i : Nat) (tA tB : transaction),
        (entriesWith (some b) ((World.empty.run calls).store a).transactions)[i]? = some tA →
        (entriesWith (some a) ((World.empty.run calls).store b).transactions)[i]? = some tB →
        tA.comment = tB.comment ∧
        tA.balance_delta_xts = -tB.balance_delta_xts ∧
        (tB.balance_delta_xts.val ≠ INT_MIN →
          tA.balance_delta_xts.val = -tB.balance_delta_xts.val)) ∧
    (∀ name p, (name, p) ∈ (World.empty.run calls).clients →
      ((World.empty.run calls).store p).transactions[0]? =
        some ⟨100, "Initial deposit for " ++ name, none⟩ ∧
      ∀ (i : Nat) (t : transaction),
        ((World.empty.run calls).store p).transactions[i]? = some t →
        (t.counterparty = none ↔ i = 0)) := by
  have hwf := World.run_wellFormed calls World.empty World.empty_wellFormed
  have hmir := (World.run_mirror calls World.empty World.empty_wellFormed
    World.empty_mirror hadm).2
  have hseed := World.run_seeded calls World.empty World.empty_wellFormed World.empty_seeded
  refine ⟨?_, ?_⟩
  · intro a b ha hb hab
    have heq := hmir a b (hwf a ha) (hwf b hb) hab
    refine ⟨by rw [heq, List.length_map], ?_⟩
    intro i tA tB hA hB
    rw [heq, List.getElem?_map, hB] at hA
    have htA : tA = transaction.mirrored b tB := (Option.some.inj hA).symm
    rw [htA]
    exact ⟨rfl, rfl, fun h => CInt.neg_val_exact _ h⟩
  · intro name p hp
    obtain ⟨-, rest, hlog, hrest⟩ := hseed name p hp
    rw [hlog]
    refine ⟨by rw [List.getElem?_cons_zero]; rfl, ?_⟩
    intro i t ht
    cases i with
    | zero =>
        rw [List.getElem?_cons_zero] at ht
        have : t = initialDeposit name := (Option.some.inj ht).symm
        rw [this]
        exact ⟨fun _ => rfl, fun _ => rfl⟩
    | succ j =>
        rw [List.getElem?_cons_succ] at ht
        have hmem : t ∈ rest := List.getElem?_mem ht
        exact ⟨fun h => absurd h (hrest t hmem), fun h => absurd h (Nat.succ_ne_zero j)⟩

/-- Witness for C20: `alice` pays `bob` 30, `bob` pays `alice` 45, `carol` sends
`alice` 5; the entries between `alice` and `bob` mirror each other. -/
theorem double_entry_mirror_witness :
    World.empty.Admits
      [.get_or_create_user "alice", .get_or_create_user "bob", .transfer ⟨0, 1, 30, "p"⟩,
        .get_or_create_user "carol", .transfer ⟨1, 0, 45, "q"⟩, .transfer ⟨2, 0, 5, "r"⟩] ∧
    entriesWith (some 1) ((World.empty.run
      [.get_or_create_user "alice", .get_or_create_user "bob", .transfer ⟨0, 1, 30, "p"⟩,
        .get_or_create_user "carol", .transfer ⟨1, 0, 45, "q"⟩,
        .transfer ⟨2, 0, 5, "r"⟩]).store 0).transactions =
      [⟨-30, "p", some 1⟩, ⟨45, "q", some 1⟩] ∧
    entriesWith (some 0) ((World.empty.run
      [.get_or_create_user "alice", .get_or_create_user "bob", .transfer ⟨0, 1, 30, "p"⟩,
        .get_or_create_user "carol", .transfer ⟨1, 0, 45, "q"⟩,
        .transfer ⟨2, 0, 5, "r"⟩]).store 1).transactions =
      [⟨30, "p", some 0⟩, ⟨-45, "q", some 0⟩] ∧
    (entriesWith (some 1) ((World.empty.run
      [.get_or_create_user "alice", .get_or_create_user "bob", .transfer ⟨0, 1, 30, "p"⟩,
        .get_or_create_user "carol", .transfer ⟨1, 0, 45, "q"⟩,
        .transfer ⟨2, 0, 5, "r"⟩]).store 0).transactions).length =
      (entriesWith (some 0) ((World.empty.run
        [.get_or_create_user "alice", .get_or_create_user "bob", .transfer ⟨0, 1, 30, "p"⟩,
          .get_or_create_user "carol", .transfer ⟨1, 0, 45, "q"⟩,
          .transfer ⟨2, 0, 5, "r"⟩]).store 1).transactions).length :=
  ⟨by decide, by decide, by decide,
    ((double_entry_mirror
      [.get_or_create_user "alice", .get_or_create_user "bob", .transfer ⟨0, 1, 30, "p"⟩,
        .get_or_create_user "carol", .transfer ⟨1, 0, 45, "q"⟩, .transfer ⟨2, 0, 5, "r"⟩]
      (by decide)).1 0 1 (by decide) (by decide) (by decide)).1⟩

/-- C20 fails as stated: `alice` and `bob` are fresh and `alice` calls
`transfer(bob, INT_MIN, "x")`.  The call passes the three checks; the entry in
the log of `bob` has delta `INT_MIN` and the entry in the log of `alice` has
delta `-INT_MIN`, which as an `int` is `INT_MIN` again: the two deltas are equal,
not opposite. -/
theorem double_entry_not_opposite :
    (transfer twoFresh.store 0 1 (-2147483648) "x").1 = none ∧
    (entriesWith (some 1)
      ((transfer twoFresh.store 0 1 (-2147483648) "x").2 0).transactions).map
      (fun t => t.balance_delta_xts.val) = [-2147483648] ∧
    (entriesWith (some 0)
      ((transfer twoFresh.store 0 1 (-2147483648) "x").2 1).transactions).map
      (fun t => t.balance_delta_xts.val) = [-2147483648] ∧
    (-2147483648 : Int) ≠ -(-2147483648) := by
  decide

/-! ## Append-only logs -/

theorem World.perform_wellFormed (w : World) (op : CoreCall) (hw : w.wellFormed) :
    (w.perform op).wellFormed := by
  cases op with
  | get_or_create_user name => exact w.step_wellFormed _ hw
  | transfer c => exact w.step_wellFormed _ hw
  | balance_xts _ => exact hw
  | monitor _ => exact hw
  | snapshot_transactions _ => exact hw
  | wait_next_transaction _ => exact hw

theorem World.performAll_wellFormed (ops : List CoreCall) :
    ∀ w : World, w.wellFormed → (w.performAll ops).wellFormed := by
  induction ops with
  | nil => intro w hw; exact hw
  | cons op ops ih => intro w hw; exact ih (w.perform op) (w.perform_wellFormed op hw)

/-- One operation keeps every account registered and only appends to its log. -/
theorem World.perform_log (w : World) (op : CoreCall) (hw : w.wellFormed) (p : UserId)
    (hp : p ∈ w.accounts) :
    p ∈ (w.perform op).accounts ∧
    ∃ new, ((w.perform op).store p).transactions = (w.store p).transactions ++ new := by
  cases op with
  | get_or_create_user name =>
      show p ∈ (get_or_create_user w name).2.accounts ∧
        ∃ new, ((get_or_create_user w name).2.store p).transactions = _ ++ new
      cases hlook : w.clients.lookup name with
      | some q =>
          rw [get_or_create_user_of_some w name q hlook]
          exact ⟨hp, [], by simp⟩
      | none =>
          rw [get_or_create_user_of_none w name hlook]
          refine ⟨?_, [], ?_⟩
          · show p ∈ (w.clients ++ [(name, w.fresh)]).map Prod.snd
            rw [List.map_append, List.mem_append]
            exact Or.inl hp
          · show (Function.update w.store w.fresh (user.ctor name) p).transactions = _
            rw [Function.update_noteq (Nat.ne_of_lt (hw p hp)), List.append_nil]
  | transfer c =>
      obtain ⟨-, new, hnew, -⟩ := c.exec_user w.store p
      exact ⟨hp, new, hnew⟩
  | balance_xts _ => exact ⟨hp, [], by simp [World.perform]⟩
  | monitor _ => exact ⟨hp, [], by simp [World.perform]⟩
  | snapshot_transactions _ => exact ⟨hp, [], by simp [World.perform]⟩
  | wait_next_transaction _ => exact ⟨hp, [], by simp [World.perform]⟩

theorem World.performAll_log (ops : List CoreCall) :
    ∀ (w : World), w.wellFormed → ∀ p ∈ w.accounts,
      ∃ new, ((w.performAll ops).store p).transactions = (w.store p).transactions ++ new := by
  induction ops with
  | nil => intro w _ p _; exact ⟨[], by simp [World.performAll]⟩
  | cons op ops ih =>
      intro w hw p hp
      obtain ⟨hp1, new1, h1⟩ := w.perform_log op hw p hp
      obtain ⟨new2, h2⟩ := ih (w.perform op) (w.perform_wellFormed op hw) p hp1
      refine ⟨new1 ++ new2, ?_⟩
      show (((w.perform op).performAll ops).store p).transactions = _
      rw [h2, h1, List.append_assoc]

/-- C14: in every state of the ledger (reached from the empty ledger by any
operations of the core) and for every account, every operation of the core
(`get_or_create_user`, `transfer` raising or not, `balance_xts`, `monitor`,
`snapshot_transactions`, `wait_next_transaction`) and every sequence of them
leaves a log that is the log before followed by new entries: each old entry
stays at its index, and the length does not decrease. -/
theorem log_is_append_only (before ops : List CoreCall) (p : UserId)
    (hp : p ∈ (World.empty.performAll before).accounts) :
    (∃ new, (((World.empty.performAll before).performAll ops).store p).transactions =
      ((World.empty.performAll before).store p).transactions ++ new) ∧
    ((World.empty.performAll before).store p).transactions.length ≤
      (((World.empty.performAll before).performAll ops).store p).transactions.length ∧
    (∀ (i : Nat) (t : transaction),
      ((World.empty.performAll before).store p).transactions[i]? = some t →
      (((World.empty.performAll before).performAll ops).store p).transactions[i]? = some t) ∧
    (∀ op : CoreCall, ∃ new,
      (((World.empty.performAll before).perform op).store p).transactions =
        ((World.empty.performAll before).store p).transactions ++ new) := by
  have hwf := World.performAll_wellFormed before World.empty World.empty_wellFormed
  obtain ⟨new, hnew⟩ := World.performAll_log ops _ hwf p hp
  refine ⟨⟨new, hnew⟩, ?_, ?_, ?_⟩
  · rw [hnew, List.length_append]
    exact Nat.le_add_right _ _
  · intro i t ht
    rw [hnew]
    have hlt : i < ((World.empty.performAll before).store p).transactions.length := by
      rcases Nat.lt_or_ge i ((World.empty.performAll before).store p).transactions.length
        with h | h
      · exact h
      · rw [List.getElem?_eq_none h] at ht
        cases ht
    rw [List.getElem?_append_left hlt]
    exact ht
  · intro op
    exact (World.perform_log _ op hwf p hp).2

/-- Witness for C14: the log of `alice` before and after five more operations. -/
theorem log_is_append_only_witness :
    (0 : UserId) ∈ (World.empty.performAll
      [.get_or_create_user "alice", .get_or_create_user "bob"]).accounts ∧
    (((World.empty.performAll [.get_or_create_user "alice", .get_or_create_user "bob"]).performAll
      [.transfer ⟨0, 1, 30, "p"⟩, .monitor 0, .transfer ⟨0, 1, 500, "q"⟩,
        .get_or_create_user "alice", .wait_next_transaction ⟨0, 1⟩]).store 0).transactions =
      [⟨100, "Initial deposit for alice", none⟩, ⟨-30, "p", some 1⟩] ∧
    1 ≤ (((World.empty.performAll
      [.get_or_create_user "alice", .get_or_create_user "bob"]).performAll
      [.transfer ⟨0, 1, 30, "p"⟩, .monitor 0, .transfer ⟨0, 1, 500, "q"⟩,
        .get_or_create_user "alice", .wait_next_transaction ⟨0, 1⟩]).store 0).transactions.length :=
  ⟨by decide, by decide,
    (log_is_append_only [.get_or_create_user "alice", .get_or_create_user "bob"]
      [.transfer ⟨0, 1, 30, "p"⟩, .monitor 0, .transfer ⟨0, 1, 500, "q"⟩,
        .get_or_create_user "alice", .wait_next_transaction ⟨0, 1⟩] 0 (by decide)).2.1⟩

/-! ## Snapshots -/

/-- C15 (as amended): `snapshot_transactions(f)` applies `f` once, to the
current log and the current balance of the account (a callback that records its
arguments records exactly this one pair); it leaves the memory and the ledger
as they are; the cursor it returns is bound to the account and its position is
`static_cast<int>` of the length of the log `f` was given, which is that length
whenever the log has fewer than `2^31` entries; `monitor()` returns the cursor
`snapshot_transactions` returns for a callback that does nothing. -/
theorem snapshot_transactions_spec (w : World) (u : UserId) :
    (∀ (σ : Type) (f : List transaction → CInt → σ → σ) (obs : σ),
      (snapshot_transactions w.store u f obs).1 =
        f (w.store u).transactions (w.store u).balance obs ∧
      (snapshot_transactions w.store u f obs).2.client = u ∧
      (snapshot_transactions w.store u f obs).2.countTransactions =
        static_cast_int (w.store u).transactions.length ∧
      (((w.store u).transactions.length : Int) ≤ INT_MAX →
        (snapshot_transactions w.store u f obs).2.countTransactions.val =
          (w.store u).transactions.length)) ∧
    (snapshot_transactions w.store u
      (fun l b (seen : List (List transaction × CInt)) => seen ++ [(l, b)]) []).1 =
      [((w.store u).transactions, (w.store u).balance)] ∧
    w.perform (.snapshot_transactions u) = w ∧
    w.perform (.monitor u) = w ∧
    (∀ (σ : Type) (obs : σ),
      (snapshot_transactions w.store u (fun _ _ o => o) obs).1 = obs ∧
      monitor w.store u = (snapshot_transactions w.store u (fun _ _ o => o) obs).2) :=
  ⟨fun _ _ _ => ⟨rfl, rfl, rfl, fun h => static_cast_int_val _ h⟩, rfl, rfl, rfl,
    fun _ _ => ⟨rfl, rfl⟩⟩

/-- Witness for C15: a snapshot of `bob` after `alice` paid him 30, with a
callback that records the balance it is shown. -/
theorem snapshot_transactions_spec_witness :
    snapshot_transactions (execAll twoFresh.store [⟨0, 1, 30, "p"⟩]) 1
      (fun _ b (seen : List Int) => seen ++ [b.val]) [] = ([130], ⟨1, 2⟩) ∧
    monitor (execAll twoFresh.store [⟨0, 1, 30, "p"⟩]) 1 = ⟨1, 2⟩ :=
  ⟨by decide,
    ((snapshot_transactions_spec ⟨execAll twoFresh.store [⟨0, 1, 30, "p"⟩], 2, []⟩ 1).2.2.2.2
      Unit ()).2.trans (by decide)⟩

/-- C15 fails as stated: after 2147483647 calls `transfer(bob, 0, "ping")` the log
of `alice` has `2^31` entries; the cursor `snapshot_transactions` returns for it
stands at `static_cast<int>(2^31) = INT_MIN`, not at the length of the log. -/
theorem snapshot_position_wraps :
    (longLog 2147483647 0).transactions.length = 2147483648 ∧
    (snapshot_transactions (longLog 2147483647) 0 (fun _ _ o => o) ()).2.countTransactions.val =
      -2147483648 ∧
    (snapshot_transactions (longLog 2147483647) 0 (fun _ _ o => o) ()).2.countTransactions.val ≠
      ((longLog 2147483647 0).transactions.length : Int) := by
  have hlen := longLog_length 2147483647
  have hpos : (snapshot_transactions (longLog 2147483647) 0 (fun _ _ o => o)
      ()).2.countTransactions.val = -2147483648 := by
    show (static_cast_int (longLog 2147483647 0).transactions.length).val = -2147483648
    rw [hlen]
    unfold static_cast_int
    decide
  refine ⟨hlen, hpos, ?_⟩
  rw [hpos, hlen]
  decide

/-! ## Notification and locking -/

/-- C16, what the code does: `alice` pays `bob` 30.  The call raises nothing and
appends one entry to the log of `bob`, so the wait predicate of a cursor that
stood at the end of the log of `bob` is now true; `notify_all` is called on the
condition variable of `alice` only, not on the one of `bob`. -/
theorem transfer_notifies_source_only :
    (transfer twoFresh.store 0 1 30 "lunch").1 = none ∧
    ((transfer twoFresh.store 0 1 30 "lunch").2 1).transactions.length =
      (twoFresh.store 1).transactions.length + 1 ∧
    wait_next_transaction twoFresh.store (monitor twoFresh.store 1) = .blocked ∧
    wait_next_transaction (transfer twoFresh.store 0 1 30 "lunch").2 (monitor twoFresh.store 1) =
      .returned ⟨30, "lunch", some 0⟩ ⟨1, 2⟩ ∧
    transfer_notified twoFresh.store 0 1 30 "lunch" = [0] ∧
    (1 : UserId) ∉ transfer_notified twoFresh.store 0 1 30 "lunch" := by
  decide

/-- C17, what the code does: a call `A.transfer(A, ...)` hands the same mutex to
`std::scoped_lock` twice, so its lock acquisition does not complete, whereas for
two different accounts both mutexes are acquired, in either direction. -/
theorem transfer_locks_self :
    transfer_locks 0 0 = none ∧
    transfer_locks 0 1 = some [0, 1] ∧
    transfer_locks 1 0 = some [1, 0] := by
  decide

/-! ## Negative amounts -/

/-- C18 (as amended): for two distinct accounts `a` and `b` with
`a.balance > 0` and every amount `amt < 0`, `transfer` raises nothing, whatever
the balance of `b`; when `a.balance + |amt|` does not exceed `INT_MAX` the
balance of `a` rises by `|amt|`, and when `b.balance - |amt|` does not fall
below `INT_MIN` the balance of `b` falls by `|amt|` and so is negative whenever
`|amt| > b.balance`; from two fresh accounts the amount `-200` leaves the
destination at `-100`. -/
theorem transfer_negative_amount (s : Store) (a b : UserId) (amt : CInt) (c : String)
    (hab : a ≠ b) (hpos : 0 < (s a).balance) (hneg : amt < 0) :
    (transfer s a b amt c).1 = none ∧
    ((s a).balance.val + -amt.val ≤ INT_MAX →
      ((transfer s a b amt c).2 a).balance.val = (s a).balance.val + -amt.val) ∧
    (INT_MIN ≤ (s b).balance.val - -amt.val →
      ((transfer s a b amt c).2 b).balance.val = (s b).balance.val - -amt.val ∧
      ((s b).balance.val < -amt.val → ((transfer s a b amt c).2 b).balance.val < 0)) ∧
    ((transfer twoFresh.store 0 1 (-200) c).1 = none ∧
      ((transfer twoFresh.store 0 1 (-200) c).2 0).balance.val = 300 ∧
      ((transfer twoFresh.store 0 1 (-200) c).2 1).balance.val = -100) := by
  have hposv : (0 : Int) < (s a).balance.val := by
    have := (CInt.lt_def _ _).1 hpos
    rwa [CInt.zero_val] at this
  have hnegv : amt.val < 0 := by
    have := (CInt.lt_def _ _).1 hneg
    rwa [CInt.zero_val] at this
  have h1 : ¬ (s a).balance < amt := by
    rw [CInt.lt_def]; omega
  have h2 : ¬ (s a).balance ≤ 0 := by
    rw [CInt.le_def, CInt.zero_val]; omega
  have hA := (s a).balance.inRange
  have hB := (s b).balance.inRange
  have hM := amt.inRange
  obtain ⟨e1, e2, e3, -⟩ := transfer_pass s a b amt c h1 h2 hab
  refine ⟨e1, ?_, ?_, ?_⟩
  · intro hfit
    rw [e2]
    show ((s a).balance - amt).val = _
    rw [CInt.sub_val, wrapInt_eq_self (by unfold INT_MIN at *; omega) (by omega)]
    omega
  · intro hfit
    have hval : ((transfer s a b amt c).2 b).balance.val = (s b).balance.val - -amt.val := by
      rw [e3]
      show ((s b).balance + amt).val = _
      rw [CInt.add_val, wrapInt_eq_self (by omega) (by unfold INT_MAX at *; omega)]
      omega
    exact ⟨hval, fun h => by rw [hval]; omega⟩
  · have k1 : ¬ (twoFresh.store 0).balance < (-200 : CInt) := by decide
    have k2 : ¬ (twoFresh.store 0).balance ≤ 0 := by decide
    obtain ⟨f1, f2, f3, -⟩ := transfer_pass twoFresh.store 0 1 (-200) c k1 k2 (by decide)
    refine ⟨f1, ?_, ?_⟩
    · rw [f2]
      show ((twoFresh.store 0).balance - (-200 : CInt)).val = 300
      decide
    · rw [f3]
      show ((twoFresh.store 1).balance + (-200 : CInt)).val = -100
      decide

/-- Witness for C18: `alice` pulls 200 out of `bob`. -/
theorem transfer_negative_amount_witness :
    ((0 : UserId) ≠ 1 ∧ (0 : CInt) < (twoFresh.store 0).balance ∧ (-200 : CInt) < 0) ∧
    (transfer twoFresh.store 0 1 (-200) "pull").1 = none ∧
    ((transfer twoFresh.store 0 1 (-200) "pull").2 1).balance.val = -100 :=
  have h := transfer_negative_amount twoFresh.store 0 1 (-200) "pull" (by decide) (by decide)
    (by decide)
  ⟨by decide, h.1, (h.2.2.1 (by decide)).1.trans (by decide)⟩

/-- C18 fails as stated: `alice` (balance 100) calls
`transfer(bob, -2147483548, "x")`.  The call passes the three checks, but
`100 + 2147483548` is `INT_MAX + 1`: the balance of `alice` afterwards is
`INT_MIN`, not her old balance raised by `|amt|`. -/
theorem transfer_negative_amount_overflows :
    (0 : UserId) ≠ 1 ∧ (0 : CInt) < (twoFresh.store 0).balance ∧ (-2147483548 : CInt) < 0 ∧
    (-2147483548 : CInt).val = -2147483548 ∧
    (transfer twoFresh.store 0 1 (-2147483548) "x").1 = none ∧
    ((transfer twoFresh.store 0 1 (-2147483548) "x").2 0).balance.val = -2147483648 ∧
    ((transfer twoFresh.store 0 1 (-2147483548) "x").2 0).balance.val ≠
      (twoFresh.store 0).balance.val + 2147483548 := by
  decide

end bank
